import Mathlib

/-!
# Lispy (OLDparsing.c): a shallow embedding of the evaluator

The C program manipulates heap-allocated `lval` trees and an `lenv` table.
The embedding uses value semantics:

* an `lval*` is a value of the inductive type `Lval`; `lval_copy` is a
  structural traversal (proved to be the identity); `lval_del` frees memory,
  which is not observable here, but it also reads fields: on a Number it
  falls through into the Function case and tests `v->builtin`, which no
  constructor of a Number ever writes, so `lval_del` is embedded as the run
  of those reads, and every function calls it where the source does (the
  deletion of a list that has just been emptied reads nothing);
* an `lenv*` is the list of its `(syms[i], vals[i])` entries, in index order;
  a function that mutates the environment returns the new one;
* `long` is `Int`; `+ - *` wrap modulo `2^64` (two's complement), integer
  division by zero and `LONG_MIN / -1` are faults;
* a C string is a `String`, `strcmp(a, b) == 0` is `a = b`;
* a statement whose behaviour is undefined in C (division by zero, a call
  through a null function pointer, an out-of-range cell access, a read of a
  field that was never written, a `printf` conversion given the wrong
  argument type) ends the run with a `Fault`;
* `lval_eval` may not terminate, so it takes a fuel (the number of nested
  `lval_eval_sexpr` activations allowed); running out is `Outcome.timeout`.
-/

namespace Lispy

/-! ## Outcomes -/

/-- Undefined behaviour reached by the C code. -/
inductive Fault where
  /-- `x->num /= y->num` with `y->num == 0`. -/
  | divide_by_zero
  /-- `LONG_MIN / -1`. -/
  | divide_overflow
  /-- `f->builtin(e, v)` with `f->builtin == NULL` (a lambda). -/
  | null_call
  /-- `v->cell[i]` with `i` outside `0 .. v->count - 1`, or `x->cell` with `x == NULL`. -/
  | out_of_range
  /-- a read of a struct field that was never written for this type tag. -/
  | uninit_field
  /-- a `%i` conversion given a `char*` argument. -/
  | bad_format
  deriving DecidableEq, Repr

/-- What a run of a C function produces. -/
inductive Outcome (α : Type) where
  /-- the function returned. -/
  | ok (a : α)
  /-- the run reached undefined behaviour. -/
  | fault (f : Fault)
  /-- the fuel of the model ran out. -/
  | timeout
  deriving Repr

/-! ## Values -/

/-- The functions of type `lbuiltin` that the program defines. -/
inductive Lbuiltin where
  | fn_def | fn_list | fn_head | fn_tail | fn_eval | fn_join
  | fn_add | fn_sub | fn_mul | fn_div | fn_lambda
  deriving DecidableEq, Repr

/-- The `enum` of type tags. -/
inductive Ltype where
  | LVAL_NUM | LVAL_ERR | LVAL_SYM | LVAL_FUN | LVAL_SEXPR | LVAL_QEXPR
  deriving DecidableEq, Repr

/-- A `struct lval`, by type tag. `LVAL_FUN` splits on `builtin != NULL`. -/
inductive Lval where
  | num (n : Int)
  | err (msg : String)
  | sym (s : String)
  | builtin (b : Lbuiltin)
  | lambda (env : List (String × Lval)) (formals body : Lval)
  | sexpr (cells : List Lval)
  | qexpr (cells : List Lval)

/-- A `struct lenv`: entry `i` is `(syms[i], vals[i])`, `count` is the length. -/
abbrev Lenv := List (String × Lval)

/-- The field `v->type`. -/
def Lval.type : Lval → Ltype
  | .num _ => .LVAL_NUM
  | .err _ => .LVAL_ERR
  | .sym _ => .LVAL_SYM
  | .builtin _ => .LVAL_FUN
  | .lambda _ _ _ => .LVAL_FUN
  | .sexpr _ => .LVAL_SEXPR
  | .qexpr _ => .LVAL_QEXPR

def ltype_name : Ltype → String
  | .LVAL_FUN => "Function"
  | .LVAL_NUM => "Number"
  | .LVAL_ERR => "Error"
  | .LVAL_SYM => "Symbol"
  | .LVAL_SEXPR => "S-Expression"
  | .LVAL_QEXPR => "Q-Expression"

/-- Test `v->type == LVAL_ERR`. -/
def Lval.is_err : Lval → Bool
  | .err _ => true
  | _ => false

/-- Test `v->type == LVAL_NUM`. -/
def Lval.is_num : Lval → Bool
  | .num _ => true
  | _ => false

/-- Test `v->type == LVAL_SYM`. -/
def Lval.is_sym : Lval → Bool
  | .sym _ => true
  | _ => false

/-- Test `v->type == LVAL_QEXPR`. -/
def Lval.is_qexpr : Lval → Bool
  | .qexpr _ => true
  | _ => false

/-- Test `v->type == LVAL_FUN`. -/
def Lval.is_fun : Lval → Bool
  | .builtin _ => true
  | .lambda _ _ _ => true
  | _ => false

def lval_num (x : Int) : Lval := .num x

/-- The function `lval_err`, applied to the text that the format and its
arguments expand to: `vsnprintf(v->err, 511, ...)` keeps at most 510 characters. -/
def lval_err (text : String) : Lval := .err (String.mk (text.data.take 510))

def lval_sym (s : String) : Lval := .sym s

def lval_sexpr : Lval := .sexpr []

def lval_qexpr : Lval := .qexpr []

def lval_builtin (func : Lbuiltin) : Lval := .builtin func

def lenv_new : Lenv := []

def lval_lambda (formals body : Lval) : Lval := .lambda lenv_new formals body

/-- The function `lval_add` on the cell array of `v`. -/
def lval_add (cells : List Lval) (x : Lval) : List Lval := cells ++ [x]

/-- The function `lval_pop` on the cell array of `v`: the item at `i` and the
cells left in `v`; `none` when `v->cell[i]` is out of range. -/
def lval_pop (cells : List Lval) (i : Nat) : Option (Lval × List Lval) :=
  match cells.get? i with
  | some x => some (x, cells.eraseIdx i)
  | none => none

mutual
/-- The function `lval_del`, as the reads it performs. `case LVAL_NUM:` has no
`break` and falls through into `case LVAL_FUN:`, whose test `!v->builtin`
reads a field that neither `lval_num` nor `lval_copy` writes for a Number. -/
def lval_del : Lval → Outcome Unit
  | .num _ => .fault .uninit_field
  | .builtin _ => .ok ()
  | .lambda env formals body =>
      match lenv_del env with
      | .ok _ =>
          match lval_del formals with
          | .ok _ => lval_del body
          | .fault f => .fault f
          | .timeout => .timeout
      | .fault f => .fault f
      | .timeout => .timeout
  | .err _ => .ok ()
  | .sym _ => .ok ()
  | .sexpr cells => lval_del_cells cells
  | .qexpr cells => lval_del_cells cells
/-- The loop of `lval_del` over `v->cell`; it is also `lval_del` of the
S-expression that holds the cells. -/
def lval_del_cells : List Lval → Outcome Unit
  | [] => .ok ()
  | c :: cs =>
      match lval_del c with
      | .ok _ => lval_del_cells cs
      | .fault f => .fault f
      | .timeout => .timeout
/-- The function `lenv_del`. -/
def lenv_del : List (String × Lval) → Outcome Unit
  | [] => .ok ()
  | (_, v) :: rest =>
      match lval_del v with
      | .ok _ => lenv_del rest
      | .fault f => .fault f
      | .timeout => .timeout
end

/-- A deletion `d` followed by the rest of the run, `next`. -/
def after_del {α : Type} (d : Outcome Unit) (next : Outcome α) : Outcome α :=
  match d with
  | .ok _ => next
  | .fault f => .fault f
  | .timeout => .timeout

/-- The function `lval_take`: `lval_pop`, then `lval_del(v)` on the list with
the cells that are left. -/
def lval_take (cells : List Lval) (i : Nat) : Outcome Lval :=
  match lval_pop cells i with
  | some (x, rest) => after_del (lval_del_cells rest) (.ok x)
  | none => .fault .out_of_range

mutual
/-- The function `lval_print`, returning the characters written to `stdout`. -/
def lval_print : Lval → String
  | .builtin _ => "<builtin>"
  | .lambda _ formals body =>
      "(\\ " ++ lval_print formals ++ " " ++ lval_print body ++ ")"
  | .num n => toString n
  | .err msg => "Error: " ++ msg
  | .sym s => s
  | .sexpr cells => "(" ++ lval_expr_print_loop cells ++ ")"
  | .qexpr cells => "\x7b" ++ lval_expr_print_loop cells ++ "\x7d"
/-- The loop of `lval_expr_print`: the cells, a space after each but the last. -/
def lval_expr_print_loop : List Lval → String
  | [] => ""
  | c :: cs =>
      lval_print c ++ (if cs.length = 0 then "" else " ") ++ lval_expr_print_loop cs
end

def lval_println (v : Lval) : String := lval_print v ++ "\n"

mutual
def lval_copy : Lval → Lval
  | .builtin b => .builtin b
  | .lambda env formals body =>
      .lambda (lenv_copy env) (lval_copy formals) (lval_copy body)
  | .num n => .num n
  | .err msg => .err msg
  | .sym s => .sym s
  | .sexpr cells => .sexpr (lval_copy_cells cells)
  | .qexpr cells => .qexpr (lval_copy_cells cells)
/-- The loop of `lval_copy` over `v->cell`. -/
def lval_copy_cells : List Lval → List Lval
  | [] => []
  | c :: cs => lval_copy c :: lval_copy_cells cs
/-- Modelled from the spec: `lenv_copy` is declared in the source and called by
`lval_copy`, but its body is missing; the spec's `duplicate()` "produces an
independent scope with deep copies of every entry". -/
def lenv_copy : Lenv → Lenv
  | [] => []
  | (s, v) :: rest => (s, lval_copy v) :: lenv_copy rest
end

/-! ## Environment -/

/-- The function `lenv_get`, with `k->sym` as the key. -/
def lenv_get : Lenv → String → Lval
  | [], k => lval_err ("unbound symbol '" ++ k ++ "'")
  | (s, x) :: rest, k => if s = k then lval_copy x else lenv_get rest k

/-- The function `lenv_put`, with `k->sym` as the key: on a bound name,
`lval_del(e->vals[i])` and then the copy is stored. -/
def lenv_put : Lenv → String → Lval → Outcome Lenv
  | [], k, v => .ok [(k, lval_copy v)]
  | (s, x) :: rest, k, v =>
      if s = k then after_del (lval_del x) (.ok ((s, lval_copy v) :: rest))
      else
        match lenv_put rest k v with
        | .ok rest1 => .ok ((s, x) :: rest1)
        | .fault f => .fault f
        | .timeout => .timeout

/-! ## Machine integers -/

def LONG_MIN : Int := -9223372036854775808

def LONG_MAX : Int := 9223372036854775807

/-- The value a 64-bit two's complement `long` holds after an operation whose
mathematical result is `z`. -/
def wrap_long (z : Int) : Int :=
  (z + 9223372036854775808) % 18446744073709551616 - 9223372036854775808

/-! ## Builtins

A builtin receives the environment and the cells of its argument
S-expression `a`, and returns the environment it leaves and the value it
returns. A failed `LASSERT(args, ...)` builds the Error, runs
`lval_del(args)` and returns the Error. -/

/-- The loop `while (v->count > 1) { lval_del(lval_pop(v, 1)); }` of
`builtin_head`; the fuel is the initial `v->count`. -/
def builtin_head_loop : Nat → List Lval → Outcome (List Lval)
  | 0, v => .ok v
  | fuel + 1, v =>
      if v.length > 1 then
        match lval_pop v 1 with
        | some (y, rest) => after_del (lval_del y) (builtin_head_loop fuel rest)
        | none => .fault .out_of_range
      else .ok v

/-- The function `builtin_head`. After the checks `a` holds one cell, so
`lval_take(a, 0)` deletes an emptied list. -/
def builtin_head (e : Lenv) (a : List Lval) : Outcome (Lenv × Lval) :=
  match a with
  | [arg] =>
      match arg with
      | .qexpr v =>
          if v.length = 0 then
            after_del (lval_del_cells [arg])
              (.ok (e, lval_err "Function 'head' passed \x7b\x7d!"))
          else
            match builtin_head_loop v.length v with
            | .ok cells => .ok (e, .qexpr cells)
            | .fault f => .fault f
            | .timeout => .timeout
      | _ =>
          after_del (lval_del_cells [arg])
            (.ok (e, lval_err "Function 'head' passed incorrect type for argument 0"))
  | _ =>
      after_del (lval_del_cells a)
        (.ok (e, lval_err ("Function 'head' passed too many arguments! Got "
          ++ toString a.length ++ ", Expected " ++ toString 1 ++ ".")))

/-- The function `builtin_tail`. After the checks `a` holds one cell, so
`lval_take(a, 0)` deletes an emptied list; then `lval_del(lval_pop(v, 0))`. -/
def builtin_tail (e : Lenv) (a : List Lval) : Outcome (Lenv × Lval) :=
  match a with
  | [arg] =>
      match arg with
      | .qexpr v =>
          if v.length = 0 then
            after_del (lval_del_cells [arg])
              (.ok (e, lval_err "Function 'tail' passed \x7b\x7d!"))
          else
            match lval_pop v 0 with
            | some (y, rest) => after_del (lval_del y) (.ok (e, .qexpr rest))
            | none => .fault .out_of_range
      | _ =>
          after_del (lval_del_cells [arg])
            (.ok (e, lval_err "Function 'tail' passed incorrect type"))
  | _ =>
      after_del (lval_del_cells a)
        (.ok (e, lval_err "Function 'tail' passed too many arguments!"))

def builtin_list (e : Lenv) (a : List Lval) : Outcome (Lenv × Lval) :=
  .ok (e, .qexpr a)

/-- The function `builtin_eval`; `ev` is `lval_eval`. After the checks `a`
holds one cell, so `lval_take(a, 0)` deletes an emptied list. -/
def builtin_eval (ev : Lenv → Lval → Outcome (Lenv × Lval)) (e : Lenv) (a : List Lval) :
    Outcome (Lenv × Lval) :=
  match a with
  | [arg] =>
      match arg with
      | .qexpr x => ev e (.sexpr x)
      | _ =>
          after_del (lval_del_cells [arg])
            (.ok (e, lval_err "Function 'eval' passed incorrect type"))
  | _ =>
      after_del (lval_del_cells a)
        (.ok (e, lval_err "Function 'eval' passed too many arguments!"))

/-- The function `lval_join` on the cell arrays of `x` and `y`; the `y` it
deletes at the end has been emptied. -/
def lval_join : List Lval → List Lval → List Lval
  | x, [] => x
  | x, c :: y => lval_join (lval_add x c) y

/-- The loop `while (a->count) { x = lval_join(x, lval_pop(a, 0)); }` of
`builtin_join`, on the cells of `x`; an argument that is not a list has no
`cell` field to read. -/
def builtin_join_loop : List Lval → List Lval → Outcome (List Lval)
  | x, [] => .ok x
  | x, .qexpr y :: a => builtin_join_loop (lval_join x y) a
  | x, .sexpr y :: a => builtin_join_loop (lval_join x y) a
  | _, _ :: _ => .fault .uninit_field

/-- The function `builtin_join`; the `a` it deletes at the end has been emptied. -/
def builtin_join (e : Lenv) (a : List Lval) : Outcome (Lenv × Lval) :=
  if a.all Lval.is_qexpr then
    match lval_pop a 0 with
    | none => .fault .out_of_range
    | some (.qexpr x, a1) =>
        match builtin_join_loop x a1 with
        | .ok cells => .ok (e, .qexpr cells)
        | .fault f => .fault f
        | .timeout => .timeout
    | some (_, _) => .fault .uninit_field
  else
    after_del (lval_del_cells a)
      (.ok (e, lval_err "Function 'join' passed incorrect type!"))

/-- The statement `x->num = f(x->num)`. -/
def Lval.update_num (x : Lval) (f : Int → Int) : Outcome Lval :=
  match x with
  | .num n => .ok (.num (f n))
  | _ => .fault .uninit_field

/-- The statement `x->num /= y->num` for `y->num = d`. -/
def Lval.divide_num (x : Lval) (d : Int) : Outcome Lval :=
  if d = 0 then .fault .divide_by_zero
  else
    match x with
    | .num n =>
        if n = LONG_MIN ∧ d = -1 then .fault .divide_overflow
        else .ok (.num (Int.tdiv n d))
    | _ => .fault .uninit_field

/-- The body of the `/` branch of `builtin_op`, for `y->num = d`:
`if (y->num == 0) { lval_del(x); lval_del(y); x = lval_err("Division By Zero!"); }`
followed, inside the same block and with no `break` in between, by
`x->num /= y->num;`. -/
def builtin_op_div (x y : Lval) (d : Int) : Outcome Lval :=
  if d = 0 then
    after_del (lval_del x)
      (after_del (lval_del y) ((lval_err "Division By Zero!").divide_num d))
  else x.divide_num d

/-- One pass of the `while` body of `builtin_op`, `y` being the popped cell:
four independent `if (strcmp(op, ...) == 0)` statements in sequence, then
`lval_del(y)`. -/
def builtin_op_step (op : String) (x y : Lval) : Outcome Lval :=
  match y with
  | .num d =>
      match (if op = "+" then x.update_num (fun n => wrap_long (n + d)) else .ok x) with
      | .ok x1 =>
          match (if op = "-" then x1.update_num (fun n => wrap_long (n - d)) else .ok x1) with
          | .ok x2 =>
              match (if op = "*" then x2.update_num (fun n => wrap_long (n * d)) else .ok x2) with
              | .ok x3 =>
                  match (if op = "/" then builtin_op_div x3 y d else .ok x3) with
                  | .ok x4 => after_del (lval_del y) (.ok x4)
                  | .fault f => .fault f
                  | .timeout => .timeout
              | .fault f => .fault f
              | .timeout => .timeout
          | .fault f => .fault f
          | .timeout => .timeout
      | .fault f => .fault f
      | .timeout => .timeout
  | _ => .fault .uninit_field

/-- The loop `while (a->count > 0)` of `builtin_op`. -/
def builtin_op_loop (op : String) : Lval → List Lval → Outcome Lval
  | x, [] => .ok x
  | x, y :: a =>
      match builtin_op_step op x y with
      | .ok x1 => builtin_op_loop op x1 a
      | .fault f => .fault f
      | .timeout => .timeout

/-- The function `builtin_op`; the `a` it deletes after the loop has been emptied. -/
def builtin_op (e : Lenv) (a : List Lval) (op : String) : Outcome (Lenv × Lval) :=
  if a.all Lval.is_num then
    match lval_pop a 0 with
    | none => .fault .out_of_range
    | some (x, a1) =>
        match (if op = "-" ∧ a1.length = 0 then x.update_num (fun n => wrap_long (-n))
               else .ok x) with
        | .ok x1 =>
            match builtin_op_loop op x1 a1 with
            | .ok r => .ok (e, r)
            | .fault f => .fault f
            | .timeout => .timeout
        | .fault f => .fault f
        | .timeout => .timeout
  else
    after_del (lval_del_cells a) (.ok (e, lval_err "Cannot operate on non-number!"))

def builtin_add (e : Lenv) (a : List Lval) : Outcome (Lenv × Lval) := builtin_op e a "+"

def builtin_sub (e : Lenv) (a : List Lval) : Outcome (Lenv × Lval) := builtin_op e a "-"

def builtin_mul (e : Lenv) (a : List Lval) : Outcome (Lenv × Lval) := builtin_op e a "*"

def builtin_div (e : Lenv) (a : List Lval) : Outcome (Lenv × Lval) := builtin_op e a "/"

/-- The loop `for (i < syms->count) lenv_put(e, syms->cell[i], a->cell[i+1])` of
`builtin_def`; `vals` are the cells `a->cell[1 ..]`. It runs only when every
cell of `syms` is a Symbol and the two counts agree. -/
def builtin_def_loop : Lenv → List Lval → List Lval → Outcome Lenv
  | e, [], _ => .ok e
  | e, .sym s :: syms, v :: vals =>
      match lenv_put e s v with
      | .ok e1 => builtin_def_loop e1 syms vals
      | .fault f => .fault f
      | .timeout => .timeout
  | _, .sym _ :: _, [] => .fault .out_of_range
  | _, _ :: _, _ => .fault .uninit_field

/-- The function `builtin_def`: three checks, the binding loop, `lval_del(a)`. -/
def builtin_def (e : Lenv) (a : List Lval) : Outcome (Lenv × Lval) :=
  match a with
  | [] => .fault .out_of_range
  | .qexpr syms :: vals =>
      if syms.all Lval.is_sym then
        if (syms.length : Int) = ((Lval.qexpr syms :: vals).length : Int) - 1 then
          match builtin_def_loop e syms vals with
          | .ok e1 => after_del (lval_del_cells (.qexpr syms :: vals)) (.ok (e1, lval_sexpr))
          | .fault f => .fault f
          | .timeout => .timeout
        else
          after_del (lval_del_cells (.qexpr syms :: vals))
            (.ok (e, lval_err
              "Function 'def' cannont define incorrect number of values to symbols"))
      else
        after_del (lval_del_cells (.qexpr syms :: vals))
          (.ok (e, lval_err "Function 'def' cannont define non-symbol"))
  | first :: vals =>
      after_del (lval_del_cells (first :: vals))
        (.ok (e, lval_err "Function 'def' passed incorrect type!"))

/-- The function `builtin_lambda`. `LASSERT_TYPE` hands two `char*` to `%i`
conversions, so its failure branch is a fault; the `a` deleted at the end has
been emptied. -/
def builtin_lambda (e : Lenv) (a : List Lval) : Outcome (Lenv × Lval) :=
  match a with
  | [formals, body] =>
      match formals, body with
      | .qexpr fs, .qexpr _ =>
          match fs.find? (fun c => !c.is_sym) with
          | some c =>
              after_del (lval_del_cells [formals, body])
                (.ok (e, lval_err ("Cannot define non-symbol. Got " ++ ltype_name c.type
                  ++ ", Expected " ++ ltype_name .LVAL_SYM ++ ".")))
          | none => .ok (e, lval_lambda formals body)
      | _, _ => .fault .bad_format
  | _ =>
      after_del (lval_del_cells a)
        (.ok (e, lval_err ("Function '\\' passed incorrect number of arguments. Got "
          ++ toString a.length ++ ", Expected " ++ toString 2 ++ ".")))

/-- The function `lenv_add_builtin`: `lenv_put`, then `lval_del(k); lval_del(v)`. -/
def lenv_add_builtin (e : Lenv) (name : String) (func : Lbuiltin) : Outcome Lenv :=
  match lenv_put e name (lval_builtin func) with
  | .ok e1 =>
      after_del (lval_del (lval_sym name)) (after_del (lval_del (lval_builtin func)) (.ok e1))
  | .fault f => .fault f
  | .timeout => .timeout

/-- The function `lenv_add_builtins`: the ten registrations, in the order of the
source. -/
def lenv_add_builtins (e : Lenv) : Outcome Lenv :=
  [("def", Lbuiltin.fn_def), ("list", .fn_list), ("head", .fn_head), ("tail", .fn_tail),
    ("eval", .fn_eval), ("join", .fn_join), ("+", .fn_add), ("-", .fn_sub),
    ("*", .fn_mul), ("/", .fn_div)].foldl
    (fun acc p =>
      match acc with
      | .ok e1 => lenv_add_builtin e1 p.1 p.2
      | .fault f => .fault f
      | .timeout => .timeout)
    (.ok e)

/-! ## Evaluator -/

/-- The call `f->builtin(e, v)` for a non-null function pointer; `ev` is
`lval_eval`, which `builtin_eval` re-enters. -/
def lbuiltin_call (ev : Lenv → Lval → Outcome (Lenv × Lval)) :
    Lbuiltin → Lenv → List Lval → Outcome (Lenv × Lval)
  | .fn_def => builtin_def
  | .fn_list => builtin_list
  | .fn_head => builtin_head
  | .fn_tail => builtin_tail
  | .fn_eval => builtin_eval ev
  | .fn_join => builtin_join
  | .fn_add => builtin_add
  | .fn_sub => builtin_sub
  | .fn_mul => builtin_mul
  | .fn_div => builtin_div
  | .fn_lambda => builtin_lambda

/-- The first loop of `lval_eval_sexpr`:
`v->cell[i] = lval_eval(e, v->cell[i])` for `i = 0 .. count - 1`. -/
def lval_eval_cells (ev : Lenv → Lval → Outcome (Lenv × Lval)) :
    Lenv → List Lval → Outcome (Lenv × List Lval)
  | e, [] => .ok (e, [])
  | e, c :: cs =>
      match ev e c with
      | .ok (e1, c1) =>
          match lval_eval_cells ev e1 cs with
          | .ok (e2, cs1) => .ok (e2, c1 :: cs1)
          | .fault f => .fault f
          | .timeout => .timeout
      | .fault f => .fault f
      | .timeout => .timeout

/-- The second loop of `lval_eval_sexpr`: the smallest `i` with
`v->cell[i]->type == LVAL_ERR`, if there is one. -/
def lval_eval_sexpr_scan : List Lval → Option Nat
  | [] => none
  | c :: cs =>
      if c.is_err then some 0
      else
        match lval_eval_sexpr_scan cs with
        | some i => some (i + 1)
        | none => none

/-- The function `lval_eval_sexpr` after its first loop, on the reduced cells:
`call` is what `f->builtin(e, v)` runs for each non-null pointer. -/
def lval_eval_sexpr_apply (call : Lbuiltin → Lenv → List Lval → Outcome (Lenv × Lval))
    (e : Lenv) (v : List Lval) : Outcome (Lenv × Lval) :=
  match lval_eval_sexpr_scan v with
  | some i =>
      match lval_take v i with
      | .ok x => .ok (e, x)
      | .fault f => .fault f
      | .timeout => .timeout
  | none =>
      match v with
      | [] => .ok (e, .sexpr [])
      | [x] =>
          match lval_take [x] 0 with
          | .ok x1 => .ok (e, x1)
          | .fault f => .fault f
          | .timeout => .timeout
      | f :: args =>
          match f with
          | .builtin b =>
              match call b e args with
              | .ok r => after_del (lval_del (.builtin b)) (.ok r)
              | .fault g => .fault g
              | .timeout => .timeout
          | .lambda _ _ _ => .fault .null_call
          | _ =>
              after_del (lval_del f)
                (after_del (lval_del_cells args)
                  (.ok (e, lval_err ("S-expression starts with incorrect type. Got "
                    ++ ltype_name f.type ++ ", Expected " ++ ltype_name .LVAL_FUN ++ "."))))

/-- The function `lval_eval_sexpr` on the cells of `v`; `ev` is `lval_eval`. -/
def lval_eval_sexpr (call : Lbuiltin → Lenv → List Lval → Outcome (Lenv × Lval))
    (ev : Lenv → Lval → Outcome (Lenv × Lval)) (e : Lenv) (v : List Lval) :
    Outcome (Lenv × Lval) :=
  match lval_eval_cells ev e v with
  | .ok (e1, v1) => lval_eval_sexpr_apply call e1 v1
  | .fault f => .fault f
  | .timeout => .timeout

/-- The function `lval_eval`. The fuel bounds the nesting of `lval_eval_sexpr`
activations; values that are not S-expressions need none. For a Symbol,
`lenv_get` and then `lval_del(v)`. -/
def lval_eval : Nat → Lenv → Lval → Outcome (Lenv × Lval)
  | _, e, .sym s => after_del (lval_del (.sym s)) (.ok (e, lenv_get e s))
  | 0, _, .sexpr _ => .timeout
  | fuel + 1, e, .sexpr cells =>
      lval_eval_sexpr (lbuiltin_call (lval_eval fuel)) (lval_eval fuel) e cells
  | _, e, .num n => .ok (e, .num n)
  | _, e, .err msg => .ok (e, .err msg)
  | _, e, .builtin b => .ok (e, .builtin b)
  | _, e, .lambda env formals body => .ok (e, .lambda env formals body)
  | _, e, .qexpr cells => .ok (e, .qexpr cells)

/-! ## Reader -/

/-- The fields of an `mpc_ast_t` node that the program reads. -/
inductive mpc_ast_t where
  | mk (tag : String) (contents : String) (children : List mpc_ast_t)

def mpc_ast_t.tag : mpc_ast_t → String
  | .mk tag _ _ => tag

def mpc_ast_t.contents : mpc_ast_t → String
  | .mk _ contents _ => contents

def mpc_ast_t.children : mpc_ast_t → List mpc_ast_t
  | .mk _ _ children => children

/-- The loop of the libc function `strstr` on character lists. -/
def strstr_chars : List Char → List Char → Bool
  | [], needle => needle.isEmpty
  | c :: hay, needle => needle.isPrefixOf (c :: hay) || strstr_chars hay needle

/-- The test `strstr(hay, needle) != NULL` of libc: `needle` occurs in `hay`. -/
def strstr (hay needle : String) : Bool := strstr_chars hay.data needle.data

/-- The libc predicate `isspace` in the C locale. -/
def isspace (c : Char) : Bool :=
  c = ' ' || c = '\t' || c = '\n' || c = '\x0b' || c = '\x0c' || c = '\r'

/-- The digit loop of the libc function `strtol` in base 10: the magnitude
read so far and the rest of the text. -/
def strtol_digits : Nat → List Char → Nat
  | acc, [] => acc
  | acc, c :: cs =>
      if c.isDigit then strtol_digits (acc * 10 + (c.toNat - '0'.toNat)) cs else acc

/-- The libc function `strtol(text, NULL, 10)`: the value returned and whether
`errno` is set to `ERANGE`. White space is skipped, one sign is read, then the
longest run of digits; a magnitude outside `long` is clamped. -/
def strtol (text : String) : Int × Bool :=
  let s := text.data.dropWhile isspace
  match s with
  | '-' :: r =>
      let m := strtol_digits 0 r
      if m > 9223372036854775808 then (LONG_MIN, true) else (-(m : Int), false)
  | '+' :: r =>
      let m := strtol_digits 0 r
      if m > 9223372036854775807 then (LONG_MAX, true) else ((m : Int), false)
  | r =>
      let m := strtol_digits 0 r
      if m > 9223372036854775807 then (LONG_MAX, true) else ((m : Int), false)

/-- The function `lval_read_num`, on `t->contents`. -/
def lval_read_num (contents : String) : Lval :=
  match strtol contents with
  | (x, false) => lval_num x
  | (_, true) => lval_err "invalid number"

/-- The three assignments to `x` in `lval_read`, starting from `x = NULL`
(`none`); the cells are filled in afterwards. -/
def lval_read_container (tag : String) : Option Lval :=
  let x : Option Lval := none
  let x := if tag = ">" then some lval_sexpr else x
  let x := if strstr tag "sexpr" then some lval_sexpr else x
  let x := if strstr tag "qexpr" then some lval_qexpr else x
  x

/-- The five `continue` tests of the loop of `lval_read`. -/
def lval_read_skip (child : mpc_ast_t) : Bool :=
  child.contents = "(" || child.contents = ")" || child.contents = "\x7d"
    || child.contents = "\x7b" || child.tag = "regex"

mutual
/-- The function `lval_read`. When the tag names none of the four node kinds,
`x` is `NULL`: `lval_add` then reads through it, and so does every consumer
of a `NULL` result. -/
def lval_read : mpc_ast_t → Outcome Lval
  | .mk tag contents children =>
      if strstr tag "number" then .ok (lval_read_num contents)
      else if strstr tag "symbol" then .ok (lval_sym contents)
      else
        match lval_read_loop children with
        | .ok cells =>
            match lval_read_container tag with
            | some (.sexpr x) => .ok (.sexpr (x ++ cells))
            | some (.qexpr x) => .ok (.qexpr (x ++ cells))
            | _ => .fault .out_of_range
        | .fault f => .fault f
        | .timeout => .timeout
/-- The loop of `lval_read`: the values `lval_add` appends, in order. -/
def lval_read_loop : List mpc_ast_t → Outcome (List Lval)
  | [] => .ok []
  | c :: cs =>
      if lval_read_skip c then lval_read_loop cs
      else
        match lval_read c with
        | .ok v =>
            match lval_read_loop cs with
            | .ok vs => .ok (v :: vs)
            | .fault f => .fault f
            | .timeout => .timeout
        | .fault f => .fault f
        | .timeout => .timeout
end

/-- One turn of the loop of `main` after a successful parse: the new
environment and the line printed; `lval_del(x)` follows `lval_println(x)`. -/
def main_step (fuel : Nat) (e : Lenv) (t : mpc_ast_t) : Outcome (Lenv × String) :=
  match lval_read t with
  | .ok v =>
      match lval_eval fuel e v with
      | .ok (e1, x) => after_del (lval_del x) (.ok (e1, lval_println x))
      | .fault f => .fault f
      | .timeout => .timeout
  | .fault f => .fault f
  | .timeout => .timeout

/-! ## Auxiliary definitions for the statements -/

/-- The environment `main` starts from: `lenv_new()` then `lenv_add_builtins`. -/
def initial_env : Lenv :=
  match lenv_add_builtins lenv_new with
  | .ok e => e
  | _ => lenv_new

/-- An evaluator `ev2` extends `ev1` when it agrees with it wherever `ev1` does
not run out of fuel. -/
def Extends (ev1 ev2 : Lenv → Lval → Outcome (Lenv × Lval)) : Prop :=
  ∀ e v, ev1 e v ≠ .timeout → ev2 e v = ev1 e v

/-- The environment a completed `lenv_put(e, k, v)` leaves: the value of the
first entry named `k` replaced by `v`, or the entry `(k, v)` appended. -/
def lenv_put_result : Lenv → String → Lval → Lenv
  | [], k, v => [(k, v)]
  | (s, x) :: rest, k, v =>
      if s = k then (s, v) :: rest else (s, x) :: lenv_put_result rest k v

/-- The environment after binding `names[i]` to `vals[i]` for each `i`, in order. -/
def put_all : Lenv → List String → List Lval → Lenv
  | e, k :: names, v :: vals => put_all (lenv_put_result e k v) names vals
  | e, _, _ => e

/-- The children of a node that the loop of `lval_read` does not skip. -/
def kept_children (children : List mpc_ast_t) : List mpc_ast_t :=
  children.filter (fun c => !lval_read_skip c)

mutual
/-- A tree whose nodes, as far as `lval_read` visits them, all carry a tag it
knows: a literal, or a group (root, sexpr, qexpr) whose kept children are such
trees. Every tree the grammar of `main` produces is one. -/
def mpc_ast_t.readable : mpc_ast_t → Bool
  | .mk tag _ children =>
      strstr tag "number" || strstr tag "symbol"
        || ((tag = ">" || strstr tag "sexpr" || strstr tag "qexpr")
            && readable_children children)
/-- Every child is skipped or readable. -/
def readable_children : List mpc_ast_t → Bool
  | [] => true
  | c :: cs => (lval_read_skip c || c.readable) && readable_children cs
end

mutual
/-- Whether the symbol `eval` or the builtin `builtin_eval` occurs anywhere in a
value. -/
def Lval.mentions_eval : Lval → Bool
  | .num _ => false
  | .err _ => false
  | .sym s => decide (s = "eval")
  | .builtin b => decide (b = .fn_eval)
  | .lambda env formals body =>
      lenv_mentions_eval env || formals.mentions_eval || body.mentions_eval
  | .sexpr cells => cells_mention_eval cells
  | .qexpr cells => cells_mention_eval cells
/-- Whether some cell mentions `eval`. -/
def cells_mention_eval : List Lval → Bool
  | [] => false
  | c :: cs => c.mentions_eval || cells_mention_eval cs
/-- Whether some value of the entries mentions `eval`. -/
def lenv_mentions_eval : List (String × Lval) → Bool
  | [] => false
  | (_, v) :: rest => v.mentions_eval || lenv_mentions_eval rest
end

/-- An environment in which only the name `eval` may lead to `builtin_eval`:
the value of every other name does not mention `eval`. -/
def eval_only_by_name (e : Lenv) : Bool :=
  e.all (fun p => decide (p.1 = "eval") || !p.2.mentions_eval)

mutual
/-- The nesting depth of an expression: how deep its lists (S-expressions and
Q-expressions) are nested. -/
def Lval.depth : Lval → Nat
  | .sexpr cells => cells_depth cells + 1
  | .qexpr cells => cells_depth cells + 1
  | _ => 0
/-- The largest depth among the cells. -/
def cells_depth : List Lval → Nat
  | [] => 0
  | c :: cs => max c.depth (cells_depth cs)
end

/-- A run that finishes (it returns or stops at a fault, it does not run out of
fuel) and, when it returns, leaves `eval` reachable by its name only. -/
def finishes_clean (o : Outcome (Lenv × Lval)) : Prop :=
  o ≠ .timeout
    ∧ ∀ e1 r, o = .ok (e1, r) → eval_only_by_name e1 = true ∧ r.mentions_eval = false

/-- A dispatcher that does what `call` does on an argument list of count at
least 1 and something else, `on_empty`, on the empty list. -/
def guard_nonempty (on_empty : Lbuiltin → Lenv → Outcome (Lenv × Lval))
    (call : Lbuiltin → Lenv → List Lval → Outcome (Lenv × Lval)) :
    Lbuiltin → Lenv → List Lval → Outcome (Lenv × Lval)
  | b, e, [] => on_empty b e
  | b, e, x :: a => call b e (x :: a)

/-- The evaluator `lval_eval` with every call `f->builtin(e, v)`, the re-entrant
ones included, sent through `guard_nonempty on_empty`. -/
def lval_eval_guarded (on_empty : Lbuiltin → Lenv → Outcome (Lenv × Lval)) :
    Nat → Lenv → Lval → Outcome (Lenv × Lval)
  | _, e, .sym s => after_del (lval_del (.sym s)) (.ok (e, lenv_get e s))
  | 0, _, .sexpr _ => .timeout
  | fuel + 1, e, .sexpr cells =>
      lval_eval_sexpr
        (guard_nonempty on_empty (lbuiltin_call (lval_eval_guarded on_empty fuel)))
        (lval_eval_guarded on_empty fuel) e cells
  | _, e, .num n => .ok (e, .num n)
  | _, e, .err msg => .ok (e, .err msg)
  | _, e, .builtin b => .ok (e, .builtin b)
  | _, e, .lambda env formals body => .ok (e, .lambda env formals body)
  | _, e, .qexpr cells => .ok (e, .qexpr cells)

/-! # Theorems -/

/-! ## Copies are equal to their originals -/

mutual
theorem lval_copy_eq : ∀ v : Lval, lval_copy v = v
  | .builtin b => by simp [lval_copy]
  | .lambda env formals body => by
      simp [lval_copy, lenv_copy_eq env, lval_copy_eq formals, lval_copy_eq body]
  | .num n => by simp [lval_copy]
  | .err msg => by simp [lval_copy]
  | .sym s => by simp [lval_copy]
  | .sexpr cells => by simp [lval_copy, lval_copy_cells_eq cells]
  | .qexpr cells => by simp [lval_copy, lval_copy_cells_eq cells]
theorem lval_copy_cells_eq : ∀ cells : List Lval, lval_copy_cells cells = cells
  | [] => by simp [lval_copy_cells]
  | c :: cs => by simp [lval_copy_cells, lval_copy_eq c, lval_copy_cells_eq cs]
theorem lenv_copy_eq : ∀ e : Lenv, lenv_copy e = e
  | [] => by simp [lenv_copy]
  | (s, v) :: rest => by simp [lenv_copy, lval_copy_eq v, lenv_copy_eq rest]
end

/-! ## The initial environment -/

/-- The ten registrations of `lenv_add_builtins` complete: they delete only a
Symbol and a builtin Function each. -/
theorem lenv_add_builtins_ok : lenv_add_builtins lenv_new = .ok initial_env := rfl

theorem initial_env_names :
    initial_env.map Prod.fst
      = ["def", "list", "head", "tail", "eval", "join", "+", "-", "*", "/"] := rfl

/-! ## Deletions -/

theorem after_del_ok {α : Type} (u : Unit) (next : Outcome α) :
    after_del (.ok u) next = next := rfl

theorem after_del_fault {α : Type} (f : Fault) (next : Outcome α) :
    after_del (.fault f) next = .fault f := rfl

mutual
/-- A deletion completes or stops at the read of a never-written field. -/
theorem lval_del_result : ∀ v : Lval,
    lval_del v = .ok () ∨ lval_del v = .fault .uninit_field
  | .num _ => Or.inr (by simp [lval_del])
  | .builtin _ => Or.inl (by simp [lval_del])
  | .err _ => Or.inl (by simp [lval_del])
  | .sym _ => Or.inl (by simp [lval_del])
  | .sexpr cells => by
      simp only [lval_del]
      exact lval_del_cells_result cells
  | .qexpr cells => by
      simp only [lval_del]
      exact lval_del_cells_result cells
  | .lambda env formals body => by
      simp only [lval_del]
      rcases lenv_del_result env with h | h
      · rcases lval_del_result formals with h1 | h1
        · simp only [h, h1]
          exact lval_del_result body
        · exact Or.inr (by simp only [h, h1])
      · exact Or.inr (by simp only [h])
theorem lval_del_cells_result : ∀ cells : List Lval,
    lval_del_cells cells = .ok () ∨ lval_del_cells cells = .fault .uninit_field
  | [] => Or.inl (by simp [lval_del_cells])
  | c :: cs => by
      simp only [lval_del_cells]
      rcases lval_del_result c with h | h
      · simp only [h]
        exact lval_del_cells_result cs
      · exact Or.inr (by simp only [h])
theorem lenv_del_result : ∀ e : List (String × Lval),
    lenv_del e = .ok () ∨ lenv_del e = .fault .uninit_field
  | [] => Or.inl (by simp [lenv_del])
  | (_, v) :: rest => by
      simp only [lenv_del]
      rcases lval_del_result v with h | h
      · simp only [h]
        exact lenv_del_result rest
      · exact Or.inr (by simp only [h])
end

theorem lval_del_num (n : Int) : lval_del (.num n) = .fault .uninit_field := by
  simp [lval_del]

theorem lval_del_cells_cons (c : Lval) (cs : List Lval) :
    lval_del_cells (c :: cs) = after_del (lval_del c) (lval_del_cells cs) := by
  simp only [lval_del_cells, after_del]

theorem lval_del_cells_ok_iff (cells : List Lval) :
    lval_del_cells cells = .ok () ↔ ∀ c ∈ cells, lval_del c = .ok () := by
  induction cells with
  | nil => simp [lval_del_cells]
  | cons c cs ih =>
      rw [lval_del_cells_cons]
      rcases lval_del_result c with h | h
      · simp [h, after_del, ih]
      · simp [h, after_del]

/-! ## Division by zero -/

/-- In the `/` branch a zero divisor never leads to a returned Error: the
deletions stop the run or the division itself does. -/
theorem builtin_op_div_zero (x y : Lval) :
    builtin_op_div x y 0 = .fault .uninit_field
      ∨ builtin_op_div x y 0 = .fault .divide_by_zero := by
  simp only [builtin_op_div, if_true]
  rcases lval_del_result x with hx | hx
  · rcases lval_del_result y with hy | hy
    · exact Or.inr (by simp [hx, hy, after_del, Lval.divide_num])
    · exact Or.inl (by simp [hx, hy, after_del])
  · exact Or.inl (by simp [hx, after_del])

/-- C1 (evaluated at `/ 1 0`): on the argument list `1 0` the `/` builtin enters
the zero-divisor block; its first statement, `lval_del(x)` on the Number `x`,
already reads a field that was never written, and had the deletions completed,
the Error "Division By Zero!" would be built and, with no `break`, the
statement `x->num /= y->num` would divide by zero. No Value is returned, in any
environment, and the same happens when the evaluator reaches the builtin from
the source line `/ 1 0`. -/
theorem builtin_op_div_one_zero_faults (e : Lenv) :
    builtin_op e [.num 1, .num 0] "/" = .fault .uninit_field
    ∧ builtin_div e [.num 1, .num 0] ≠ .ok (e, .err "Division By Zero!")
    ∧ lval_eval 1 initial_env (.sexpr [.sym "/", .num 1, .num 0])
        = .fault .uninit_field
    ∧ Lval.divide_num (lval_err "Division By Zero!") 0 = .fault .divide_by_zero := by
  refine ⟨rfl, ?_, rfl, rfl⟩
  intro h
  have h1 : builtin_div e [.num 1, .num 0] = .fault .uninit_field := rfl
  rw [h1] at h
  cases h

/-! ## Arithmetic on two or more Numbers -/

/-- One pass of the loop of `builtin_op` on Numbers never gets past
`lval_del(y)`: `y` is a Number. -/
theorem builtin_op_step_num_faults (op : String) (n d : Int) :
    builtin_op_step op (.num n) (.num d) = .fault .uninit_field
      ∨ builtin_op_step op (.num n) (.num d) = .fault .divide_overflow := by
  simp only [builtin_op_step, Lval.update_num]
  by_cases h4 : op = "/"
  · subst h4
    have h1 : ¬ ("/" = "+") := by decide
    have h2 : ¬ ("/" = "-") := by decide
    have h3 : ¬ ("/" = "*") := by decide
    simp only [h1, h2, h3, if_false, if_true, builtin_op_div]
    by_cases hd : d = 0
    · exact Or.inl (by simp [hd, lval_del_num, after_del])
    · by_cases hov : n = LONG_MIN ∧ d = -1
      · exact Or.inr (by simp [hd, hov, Lval.divide_num])
      · exact Or.inl (by simp [hd, hov, Lval.divide_num, lval_del_num, after_del])
  · by_cases h1 : op = "+" <;> by_cases h2 : op = "-" <;> by_cases h3 : op = "*" <;>
      exact Or.inl (by simp [h1, h2, h3, h4, lval_del_num, after_del])

theorem builtin_op_step_faults (op : String) (n : Int) (y : Lval) :
    builtin_op_step op (.num n) y = .fault .uninit_field
      ∨ builtin_op_step op (.num n) y = .fault .divide_overflow := by
  cases y with
  | num d => exact builtin_op_step_num_faults op n d
  | err _ => exact Or.inl rfl
  | sym _ => exact Or.inl rfl
  | builtin _ => exact Or.inl rfl
  | lambda _ _ _ => exact Or.inl rfl
  | sexpr _ => exact Or.inl rfl
  | qexpr _ => exact Or.inl rfl

theorem builtin_op_loop_cons_faults (op : String) (n : Int) (y : Lval) (a : List Lval) :
    builtin_op_loop op (.num n) (y :: a) = .fault .uninit_field
      ∨ builtin_op_loop op (.num n) (y :: a) = .fault .divide_overflow := by
  rcases builtin_op_step_faults op n y with h | h
  · exact Or.inl (by simp only [builtin_op_loop, h])
  · exact Or.inr (by simp only [builtin_op_loop, h])

/-- What `builtin_op` can produce: on one Number, that Number (negated for `-`);
an Error when some argument is not a Number and the deletion of `a` completes;
otherwise a fault, which is an out-of-range access only on the empty list. -/
theorem builtin_op_result (e : Lenv) (a : List Lval) (op : String) :
    (∃ k, builtin_op e a op = .ok (e, .num k))
      ∨ (∃ msg, builtin_op e a op = .ok (e, .err msg))
      ∨ (∃ f, builtin_op e a op = .fault f ∧ (a ≠ [] → f ≠ .out_of_range)) := by
  by_cases hall : a.all Lval.is_num = true
  · cases a with
    | nil => exact Or.inr (Or.inr ⟨.out_of_range, rfl, fun h => absurd rfl h⟩)
    | cons x a1 =>
        have hx : x.is_num = true := by
          rw [List.all_eq_true] at hall
          exact hall x (by simp)
        cases x with
        | num n =>
            simp only [builtin_op, hall, if_true, lval_pop, List.get?_cons_zero,
              List.eraseIdx_cons_zero, Lval.update_num]
            cases a1 with
            | nil =>
                by_cases hop : op = "-"
                · exact Or.inl ⟨wrap_long (-n), by simp [hop, builtin_op_loop]⟩
                · exact Or.inl ⟨n, by simp [hop, builtin_op_loop]⟩
            | cons y rest =>
                have hun : ¬ (op = "-" ∧ (y :: rest).length = 0) := by simp
                rw [if_neg hun]
                rcases builtin_op_loop_cons_faults op n y rest with h | h
                · exact Or.inr (Or.inr ⟨.uninit_field, by simp only [h], by simp⟩)
                · exact Or.inr (Or.inr ⟨.divide_overflow, by simp only [h], by simp⟩)
        | err _ => simp [Lval.is_num] at hx
        | sym _ => simp [Lval.is_num] at hx
        | builtin _ => simp [Lval.is_num] at hx
        | lambda _ _ _ => simp [Lval.is_num] at hx
        | sexpr _ => simp [Lval.is_num] at hx
        | qexpr _ => simp [Lval.is_num] at hx
  · simp only [builtin_op, hall]
    rcases lval_del_cells_result a with h | h
    · exact Or.inr (Or.inl ⟨_, by simp only [h, after_del]; rfl⟩)
    · exact Or.inr (Or.inr ⟨.uninit_field, by simp [h, after_del], by simp⟩)

/-- On two or more arguments of which the first is a Number, `builtin_op` returns
no Value, whatever the operator: either `lval_del(y)` or `lval_del(a)` reads
the never-written field of a Number, or the division overflows. -/
theorem builtin_op_two_args_never_returns (e : Lenv) (op : String) (n : Int) (y : Lval)
    (rest : List Lval) :
    ∃ f, builtin_op e (.num n :: y :: rest) op = .fault f := by
  by_cases hall : (Lval.num n :: y :: rest).all Lval.is_num = true
  · simp only [builtin_op, hall, if_true, lval_pop, List.get?_cons_zero,
      List.eraseIdx_cons_zero, Lval.update_num]
    have hun : ¬ (op = "-" ∧ (y :: rest).length = 0) := by simp
    rw [if_neg hun]
    rcases builtin_op_loop_cons_faults op n y rest with h | h
    · exact ⟨.uninit_field, by simp only [h]⟩
    · exact ⟨.divide_overflow, by simp only [h]⟩
  · exact ⟨.uninit_field, by
      simp only [builtin_op, hall, lval_del_cells_cons, lval_del_num, after_del]
      simp⟩

/-! ## Errors among the reduced children -/

/-- The error scan of `lval_eval_sexpr` stops at the smallest index holding an Error. -/
theorem lval_eval_sexpr_scan_leftmost (v : List Lval) (i : Nat) (x : Lval)
    (hi : v[i]? = some x) (hx : x.is_err = true)
    (hmin : ∀ j, j < i → ∀ y, v[j]? = some y → y.is_err = false) :
    lval_eval_sexpr_scan v = some i := by
  induction v generalizing i with
  | nil => simp at hi
  | cons c cs ih =>
      cases i with
      | zero =>
          simp at hi
          subst hi
          simp [lval_eval_sexpr_scan, hx]
      | succ k =>
          have hc : c.is_err = false := hmin 0 (Nat.succ_pos k) c (by simp)
          have hk : lval_eval_sexpr_scan cs = some k := by
            apply ih k
            · simpa using hi
            · intro j hj y hy
              exact hmin (j + 1) (Nat.succ_lt_succ hj) y (by simpa using hy)
          simp [lval_eval_sexpr_scan, hc, hk]

/-- The error scan finds nothing when no cell is an Error. -/
theorem lval_eval_sexpr_scan_none (v : List Lval) (h : ∀ y ∈ v, y.is_err = false) :
    lval_eval_sexpr_scan v = none := by
  induction v with
  | nil => rfl
  | cons c cs ih =>
      have hc : c.is_err = false := h c (by simp)
      have hcs : lval_eval_sexpr_scan cs = none :=
        ih (fun y hy => h y (List.mem_cons_of_mem c hy))
      simp [lval_eval_sexpr_scan, hc, hcs]

/-- An index the error scan returns is the index of a cell, an Error. -/
theorem lval_eval_sexpr_scan_some (v : List Lval) (i : Nat)
    (h : lval_eval_sexpr_scan v = some i) :
    ∃ x, v[i]? = some x ∧ x.is_err = true := by
  induction v generalizing i with
  | nil => simp [lval_eval_sexpr_scan] at h
  | cons c cs ih =>
      simp only [lval_eval_sexpr_scan] at h
      cases hc : c.is_err with
      | true =>
          simp only [hc, if_true, Option.some.injEq] at h
          subst h
          exact ⟨c, by simp, hc⟩
      | false =>
          simp only [hc] at h
          cases hs : lval_eval_sexpr_scan cs with
          | none => simp [hs] at h
          | some k =>
              simp [hs] at h
              subst h
              obtain ⟨x, hx1, hx2⟩ := ih k hs
              exact ⟨x, by simpa using hx1, hx2⟩

/-- The function `lval_take` at an index in range: the cell, once the deletion
of the list of the other cells has completed. -/
theorem lval_take_eq (v : List Lval) (i : Nat) (x : Lval) (hi : v[i]? = some x) :
    lval_take v i = after_del (lval_del_cells (v.eraseIdx i)) (.ok x) := by
  have hg : v.get? i = some x := by simpa using hi
  simp only [lval_take, lval_pop, hg]

/-- With the leftmost Error of the reduced children at index `i`,
`lval_eval_sexpr` goes through `lval_take(v, i)`: the deletion of the other
reduced children, then the Error. No function pointer is called. -/
theorem lval_eval_sexpr_apply_error
    (call : Lbuiltin → Lenv → List Lval → Outcome (Lenv × Lval))
    (e : Lenv) (v : List Lval) (i : Nat) (x : Lval)
    (hi : v[i]? = some x) (hx : x.is_err = true)
    (hmin : ∀ j, j < i → ∀ y, v[j]? = some y → y.is_err = false) :
    lval_eval_sexpr_apply call e v
      = after_del (lval_del_cells (v.eraseIdx i)) (.ok (e, x)) := by
  have hscan := lval_eval_sexpr_scan_leftmost v i x hi hx hmin
  simp only [lval_eval_sexpr_apply, hscan, lval_take_eq v i x hi]
  cases lval_del_cells (v.eraseIdx i) <;> rfl

/-- Reducing the children is one left-to-right pass: the pass over the first
`k` children, then the pass over the others from the environment reached. -/
theorem lval_eval_cells_split (ev : Lenv → Lval → Outcome (Lenv × Lval))
    (cells : List Lval) (k : Nat) (e e1 : Lenv) (v : List Lval)
    (h : lval_eval_cells ev e cells = .ok (e1, v)) :
    ∃ ek, lval_eval_cells ev e (cells.take k) = .ok (ek, v.take k)
      ∧ lval_eval_cells ev ek (cells.drop k) = .ok (e1, v.drop k) := by
  induction cells generalizing k e v with
  | nil =>
      simp [lval_eval_cells] at h
      obtain ⟨rfl, rfl⟩ := h
      exact ⟨e, by simp [lval_eval_cells], by simp [lval_eval_cells]⟩
  | cons c cs ih =>
      cases k with
      | zero => exact ⟨e, by simp [lval_eval_cells], by simpa using h⟩
      | succ k =>
          simp only [lval_eval_cells] at h
          cases hc : ev e c with
          | ok r =>
              obtain ⟨ec, c1⟩ := r
              rw [hc] at h
              simp only at h
              cases hcs : lval_eval_cells ev ec cs with
              | ok r2 =>
                  obtain ⟨e2, cs1⟩ := r2
                  rw [hcs] at h
                  simp only [Outcome.ok.injEq, Prod.mk.injEq] at h
                  obtain ⟨rfl, rfl⟩ := h
                  obtain ⟨ek, h1, h2⟩ := ih k ec cs1 hcs
                  exact ⟨ek, by simp [lval_eval_cells, hc, h1], by simpa using h2⟩
              | fault f => rw [hcs] at h; simp at h
              | timeout => rw [hcs] at h; simp at h
          | fault f => rw [hc] at h; simp at h
          | timeout => rw [hc] at h; simp at h

/-- C2: `+ 1 a` in the initial environment. The children reduce to the builtin,
the Number 1 and the Error for the unbound `a`; the scan finds the Error at
index 2, and `lval_take(v, 2)` then runs `lval_del` on the list that still
holds the Number 1, which reads the never-written `builtin` field. No Error
is returned, whatever the function pointers would do. When every other
reduced child is deleted without that read (`+ a b`), the leftmost Error is
returned. -/
theorem lval_eval_sexpr_error_deletes_number :
    lval_eval_cells (lval_eval 0) initial_env [.sym "+", .num 1, .sym "a"]
      = .ok (initial_env, [.builtin .fn_add, .num 1, .err "unbound symbol 'a'"])
    ∧ lval_eval_sexpr_scan [.builtin .fn_add, .num 1, .err "unbound symbol 'a'"] = some 2
    ∧ lval_take [.builtin .fn_add, .num 1, .err "unbound symbol 'a'"] 2
      = .fault .uninit_field
    ∧ (∀ call : Lbuiltin → Lenv → List Lval → Outcome (Lenv × Lval),
        lval_eval_sexpr call (lval_eval 0) initial_env [.sym "+", .num 1, .sym "a"]
          = .fault .uninit_field)
    ∧ lval_eval 1 initial_env (.sexpr [.sym "+", .num 1, .sym "a"]) = .fault .uninit_field
    ∧ (∀ call : Lbuiltin → Lenv → List Lval → Outcome (Lenv × Lval),
        lval_eval_sexpr call (lval_eval 0) initial_env [.sym "+", .sym "a", .sym "b"]
          = .ok (initial_env, .err "unbound symbol 'a'")) :=
  ⟨rfl, rfl, rfl, fun _ => rfl, rfl, fun _ => rfl⟩

/-! ## Side effects of the children to the right of an Error -/

/-- C3 (as stated, refuted): `+ undefined_symbol (def {x} {})` returns the
unbound-symbol Error, yet the environment it leaves is not the one reached after
children 0..1 (the initial one, where `x` is unbound): `x` is now bound to `{}`. -/
theorem lval_eval_error_sibling_still_evaluated :
    lval_eval 2 initial_env
        (.sexpr [.sym "+", .sym "undefined_symbol",
          .sexpr [.sym "def", .qexpr [.sym "x"], .qexpr []]])
      = .ok (initial_env ++ [("x", .qexpr [])], .err "unbound symbol 'undefined_symbol'")
    ∧ lval_eval_cells (lval_eval 1) initial_env
        (List.take 2 [.sym "+", .sym "undefined_symbol",
          .sexpr [.sym "def", .qexpr [.sym "x"], .qexpr []]])
      = .ok (initial_env, [.builtin .fn_add, .err "unbound symbol 'undefined_symbol'"])
    ∧ lenv_get initial_env "x" = .err "unbound symbol 'x'"
    ∧ lenv_get (initial_env ++ [("x", .qexpr [])]) "x" = .qexpr []
    ∧ initial_env ++ [("x", Lval.qexpr [])] ≠ initial_env := by
  refine ⟨rfl, rfl, rfl, rfl, ?_⟩
  intro h
  have hlen := congrArg List.length h
  revert hlen
  decide

/-- C3 (amended): when the children of an S-expression with two or more elements
reduce to `v`, with the leftmost Error at index `i`, and the deletion of the
other reduced children completes, `lval_eval` returns that Error and leaves the
environment reached by reducing all the children: the pass over children
`0..i` reaches some `ei`, the pass goes on over the children to the right of
`i` from `ei`, and what they leave is what `lval_eval` leaves. -/
theorem lval_eval_error_env_after_all_children (fuel : Nat)
    (e e1 : Lenv) (cells v : List Lval) (i : Nat) (x : Lval)
    (_hlen : 2 ≤ cells.length)
    (hred : lval_eval_cells (lval_eval fuel) e cells = .ok (e1, v))
    (hi : v[i]? = some x) (hx : x.is_err = true)
    (hmin : ∀ j, j < i → ∀ y, v[j]? = some y → y.is_err = false)
    (hdel : lval_del_cells (v.eraseIdx i) = .ok ()) :
    ∃ ei, lval_eval_cells (lval_eval fuel) e (cells.take (i + 1)) = .ok (ei, v.take (i + 1))
      ∧ lval_eval_cells (lval_eval fuel) ei (cells.drop (i + 1)) = .ok (e1, v.drop (i + 1))
      ∧ lval_eval (fuel + 1) e (.sexpr cells) = .ok (e1, x) := by
  obtain ⟨ei, h1, h2⟩ := lval_eval_cells_split (lval_eval fuel) cells (i + 1) e e1 v hred
  refine ⟨ei, h1, h2, ?_⟩
  simp only [lval_eval, lval_eval_sexpr, hred,
    lval_eval_sexpr_apply_error _ e1 v i x hi hx hmin, hdel, after_del]

/-- C3 (amended) at `+ undefined_symbol (def {x} {})` in the initial environment. -/
theorem lval_eval_error_env_after_all_children_witness :
    ∃ ei,
      lval_eval_cells (lval_eval 1) initial_env
          (List.take (1 + 1) [.sym "+", .sym "undefined_symbol",
            .sexpr [.sym "def", .qexpr [.sym "x"], .qexpr []]])
        = .ok (ei, List.take (1 + 1)
            [.builtin .fn_add, .err "unbound symbol 'undefined_symbol'", .sexpr []])
      ∧ lval_eval_cells (lval_eval 1) ei
          (List.drop (1 + 1) [.sym "+", .sym "undefined_symbol",
            .sexpr [.sym "def", .qexpr [.sym "x"], .qexpr []]])
        = .ok (initial_env ++ [("x", .qexpr [])], List.drop (1 + 1)
            [.builtin .fn_add, .err "unbound symbol 'undefined_symbol'", .sexpr []])
      ∧ lval_eval (1 + 1) initial_env
          (.sexpr [.sym "+", .sym "undefined_symbol",
            .sexpr [.sym "def", .qexpr [.sym "x"], .qexpr []]])
        = .ok (initial_env ++ [("x", .qexpr [])],
            .err "unbound symbol 'undefined_symbol'") :=
  lval_eval_error_env_after_all_children 1 initial_env
    (initial_env ++ [("x", Lval.qexpr [])])
    [.sym "+", .sym "undefined_symbol", .sexpr [.sym "def", .qexpr [.sym "x"], .qexpr []]]
    [.builtin .fn_add, .err "unbound symbol 'undefined_symbol'", .sexpr []] 1
    (.err "unbound symbol 'undefined_symbol'") (by decide) rfl rfl rfl
    (by
      intro j hj y hy
      have hj0 : j = 0 := by omega
      subst hj0
      simp at hy
      subst hy
      rfl)
    rfl

/-! ## More fuel never changes a finished run -/

theorem lval_eval_cells_extends {ev1 ev2 : Lenv → Lval → Outcome (Lenv × Lval)}
    (h : Extends ev1 ev2) (cells : List Lval) (e : Lenv)
    (hne : lval_eval_cells ev1 e cells ≠ .timeout) :
    lval_eval_cells ev2 e cells = lval_eval_cells ev1 e cells := by
  induction cells generalizing e with
  | nil => simp [lval_eval_cells]
  | cons c cs ih =>
      simp only [lval_eval_cells] at hne ⊢
      cases hc : ev1 e c with
      | ok r =>
          obtain ⟨ec, c1⟩ := r
          have h2 : ev2 e c = .ok (ec, c1) := by
            rw [h e c (by rw [hc]; simp), hc]
          rw [hc] at hne
          simp only at hne
          have hne2 : lval_eval_cells ev1 ec cs ≠ .timeout := by
            intro ht
            rw [ht] at hne
            exact hne rfl
          simp only [h2, ih ec hne2]
      | fault f =>
          have h2 : ev2 e c = .fault f := by
            rw [h e c (by rw [hc]; simp), hc]
          simp only [h2]
      | timeout =>
          rw [hc] at hne
          exact absurd rfl hne

theorem lbuiltin_call_extends {ev1 ev2 : Lenv → Lval → Outcome (Lenv × Lval)}
    (h : Extends ev1 ev2) (b : Lbuiltin) (e : Lenv) (a : List Lval)
    (hne : lbuiltin_call ev1 b e a ≠ .timeout) :
    lbuiltin_call ev2 b e a = lbuiltin_call ev1 b e a := by
  cases b <;> try rfl
  simp only [lbuiltin_call, builtin_eval] at hne ⊢
  split <;> try rfl
  split <;> try rfl
  rename_i x
  apply h
  simpa using hne

theorem lval_eval_sexpr_extends {ev1 ev2 : Lenv → Lval → Outcome (Lenv × Lval)}
    (h : Extends ev1 ev2) (e : Lenv) (cells : List Lval)
    (hne : lval_eval_sexpr (lbuiltin_call ev1) ev1 e cells ≠ .timeout) :
    lval_eval_sexpr (lbuiltin_call ev2) ev2 e cells
      = lval_eval_sexpr (lbuiltin_call ev1) ev1 e cells := by
  simp only [lval_eval_sexpr] at hne ⊢
  have hcells : lval_eval_cells ev1 e cells ≠ .timeout := by
    intro ht
    rw [ht] at hne
    exact hne rfl
  rw [lval_eval_cells_extends h cells e hcells]
  cases hc : lval_eval_cells ev1 e cells with
  | ok r =>
      obtain ⟨e1, v1⟩ := r
      rw [hc] at hne
      simp only [lval_eval_sexpr_apply] at hne ⊢
      cases hs : lval_eval_sexpr_scan v1 with
      | some i => rfl
      | none =>
          simp only [hs] at hne ⊢
          cases v1 with
          | nil => rfl
          | cons f args =>
              cases args with
              | nil => rfl
              | cons a1 as =>
                  cases f with
                  | builtin b =>
                      simp only at hne ⊢
                      have hcall : lbuiltin_call ev1 b e1 (a1 :: as) ≠ .timeout := by
                        intro ht
                        rw [ht] at hne
                        exact hne rfl
                      rw [lbuiltin_call_extends h b e1 (a1 :: as) hcall]
                  | num _ => rfl
                  | err _ => rfl
                  | sym _ => rfl
                  | lambda _ _ _ => rfl
                  | sexpr _ => rfl
                  | qexpr _ => rfl
  | fault f => rfl
  | timeout => rfl

theorem lval_eval_succ_extends (fuel : Nat) :
    Extends (lval_eval fuel) (lval_eval (fuel + 1)) := by
  induction fuel with
  | zero =>
      intro e v hne
      cases v <;> first | rfl | (simp [lval_eval] at hne)
  | succ n ih =>
      intro e v hne
      cases v <;> try rfl
      rename_i cells
      simp only [lval_eval] at hne ⊢
      exact lval_eval_sexpr_extends ih e cells hne

/-- A run of `lval_eval` that finishes finishes the same way with any larger fuel. -/
theorem lval_eval_fuel_mono (fuel extra : Nat) (e : Lenv) (v : Lval)
    (hne : lval_eval fuel e v ≠ .timeout) :
    lval_eval (fuel + extra) e v = lval_eval fuel e v := by
  induction extra with
  | zero => rfl
  | succ k ih =>
      have h1 : lval_eval (fuel + k) e v ≠ .timeout := by rw [ih]; exact hne
      have h2 := lval_eval_succ_extends (fuel + k) e v h1
      rw [← ih, ← h2]
      rfl

/-! ## Lambdas -/

/-- C4 (as stated, refuted): from the initial environment, `\` is unbound, so
`def {add2} (\ {a b} {+ a b})` returns an Error and binds nothing: `add2` is
still unbound, the children of `add2 1` reduce to an Error and the Number 1,
and neither `add2` nor `add2 1` evaluates to a Function. -/
theorem lval_eval_add2_not_a_function :
    lval_eval 2 initial_env
        (.sexpr [.sym "def", .qexpr [.sym "add2"],
          .sexpr [.sym "\\", .qexpr [.sym "a", .sym "b"],
            .qexpr [.sym "+", .sym "a", .sym "b"]]])
      = .ok (initial_env, .err "unbound symbol '\\'")
    ∧ lval_eval_cells (lval_eval 0) initial_env [.sym "add2", .num 1]
      = .ok (initial_env, [.err "unbound symbol 'add2'", .num 1])
    ∧ lval_eval 1 initial_env (.sexpr [.sym "add2", .num 1]) = .fault .uninit_field
    ∧ lval_eval 1 initial_env (.sexpr [.sym "add2"])
      = .ok (initial_env, .err "unbound symbol 'add2'")
    ∧ (Lval.err "unbound symbol 'add2'").is_fun = false :=
  ⟨rfl, rfl, rfl, rfl, rfl⟩

/-- Applying a Lambda: `f->builtin` is `NULL`, the call through it is a fault. -/
theorem lval_eval_sexpr_apply_lambda
    (call : Lbuiltin → Lenv → List Lval → Outcome (Lenv × Lval)) (e : Lenv)
    (env : Lenv) (formals body arg : Lval) (args : List Lval)
    (h : lval_eval_sexpr_scan (Lval.lambda env formals body :: arg :: args) = none) :
    lval_eval_sexpr_apply call e (.lambda env formals body :: arg :: args)
      = .fault .null_call := by
  simp only [lval_eval_sexpr_apply, h]

/-- C4 (amended): the initial environment does not bind `\`; with any fuel from
2 on, `def {add2} (\ {a b} {+ a b})` returns the Error for the unbound symbol
`\` and leaves the environment as it was, and with any fuel from 1 on `add2`
returns the Error for the unbound symbol `add2`. -/
theorem lval_eval_lambda_symbol_unbound (extra : Nat) :
    lenv_get initial_env "\\" = .err "unbound symbol '\\'"
    ∧ lval_eval (2 + extra) initial_env
        (.sexpr [.sym "def", .qexpr [.sym "add2"],
          .sexpr [.sym "\\", .qexpr [.sym "a", .sym "b"],
            .qexpr [.sym "+", .sym "a", .sym "b"]]])
      = .ok (initial_env, .err "unbound symbol '\\'")
    ∧ lval_eval (1 + extra) initial_env (.sexpr [.sym "add2"])
      = .ok (initial_env, .err "unbound symbol 'add2'") := by
  refine ⟨rfl, ?_, ?_⟩
  · rw [lval_eval_fuel_mono 2 extra _ _ (by
      have h : lval_eval 2 initial_env
        (.sexpr [.sym "def", .qexpr [.sym "add2"],
          .sexpr [.sym "\\", .qexpr [.sym "a", .sym "b"],
            .qexpr [.sym "+", .sym "a", .sym "b"]]])
        = .ok (initial_env, .err "unbound symbol '\\'") := rfl
      rw [h]; simp)]
    rfl
  · rw [lval_eval_fuel_mono 1 extra _ _ (by
      have h : lval_eval 1 initial_env (.sexpr [.sym "add2"])
        = .ok (initial_env, .err "unbound symbol 'add2'") := rfl
      rw [h]; simp)]
    rfl

/-! ## Environment lookups after a bind -/

theorem after_del_ok_inv {α : Type} (d : Outcome Unit) (next : Outcome α) (r : α)
    (h : after_del d next = .ok r) : d = .ok () ∧ next = .ok r := by
  cases d with
  | ok u => exact ⟨rfl, h⟩
  | fault f => simp [after_del] at h
  | timeout => simp [after_del] at h

theorem lenv_del_cons_ok_iff (s : String) (x : Lval) (rest : Lenv) :
    lenv_del ((s, x) :: rest) = .ok () ↔ lval_del x = .ok () ∧ lenv_del rest = .ok () := by
  simp only [lenv_del]
  cases hx : lval_del x with
  | ok u => simp
  | fault f => simp
  | timeout => simp

/-- The function `lenv_put` either completes, leaving `lenv_put_result`, or
stops in the deletion of the value it replaces. -/
theorem lenv_put_cases (e : Lenv) (k : String) (v : Lval) :
    lenv_put e k v = .ok (lenv_put_result e k v)
      ∨ lenv_put e k v = .fault .uninit_field := by
  induction e with
  | nil => exact Or.inl (by simp [lenv_put, lenv_put_result, lval_copy_eq])
  | cons p rest ih =>
      obtain ⟨s, x⟩ := p
      by_cases h : s = k
      · rcases lval_del_result x with hx | hx
        · exact Or.inl (by simp [lenv_put, lenv_put_result, h, hx, after_del, lval_copy_eq])
        · exact Or.inr (by simp [lenv_put, h, hx, after_del])
      · rcases ih with h1 | h1
        · exact Or.inl (by simp [lenv_put, lenv_put_result, h, h1])
        · exact Or.inr (by simp [lenv_put, h, h1])

/-- When every value of the environment can be deleted, `lenv_put` completes. -/
theorem lenv_put_eq (e : Lenv) (k : String) (v : Lval) (henv : lenv_del e = .ok ()) :
    lenv_put e k v = .ok (lenv_put_result e k v) := by
  induction e with
  | nil => simp [lenv_put, lenv_put_result, lval_copy_eq]
  | cons p rest ih =>
      obtain ⟨s, x⟩ := p
      obtain ⟨hx, hrest⟩ := (lenv_del_cons_ok_iff s x rest).mp henv
      by_cases h : s = k
      · simp [lenv_put, lenv_put_result, h, hx, after_del, lval_copy_eq]
      · simp [lenv_put, lenv_put_result, h, ih hrest]

theorem lenv_del_put_result (e : Lenv) (k : String) (v : Lval)
    (henv : lenv_del e = .ok ()) (hv : lval_del v = .ok ()) :
    lenv_del (lenv_put_result e k v) = .ok () := by
  induction e with
  | nil => simp [lenv_put_result, lenv_del, hv]
  | cons p rest ih =>
      obtain ⟨s, x⟩ := p
      obtain ⟨hx, hrest⟩ := (lenv_del_cons_ok_iff s x rest).mp henv
      by_cases h : s = k
      · simp only [lenv_put_result, h, if_true]
        exact (lenv_del_cons_ok_iff k v rest).mpr ⟨hv, hrest⟩
      · simp only [lenv_put_result, h, if_false]
        exact (lenv_del_cons_ok_iff s x _).mpr ⟨hx, ih hrest⟩

theorem lenv_get_put_same (e : Lenv) (k : String) (v : Lval) :
    lenv_get (lenv_put_result e k v) k = v := by
  induction e with
  | nil => simp [lenv_put_result, lenv_get, lval_copy_eq]
  | cons p rest ih =>
      obtain ⟨s, x⟩ := p
      by_cases h : s = k
      · simp [lenv_put_result, lenv_get, h, lval_copy_eq]
      · simp [lenv_put_result, lenv_get, h, ih]

theorem lenv_get_put_other (e : Lenv) (k k2 : String) (v : Lval) (hk : k2 ≠ k) :
    lenv_get (lenv_put_result e k v) k2 = lenv_get e k2 := by
  induction e with
  | nil =>
      have hk2 : ¬ (k = k2) := fun h => hk h.symm
      simp [lenv_put_result, lenv_get, hk2]
  | cons p rest ih =>
      obtain ⟨s, x⟩ := p
      by_cases h : s = k
      · subst h
        have hk2 : ¬ (s = k2) := fun h => hk h.symm
        simp [lenv_put_result, lenv_get, hk2]
      · by_cases h2 : s = k2
        · subst h2
          simp [lenv_put_result, lenv_get, h]
        · simp [lenv_put_result, lenv_get, h, h2, ih]

theorem builtin_def_loop_eq (e : Lenv) (names : List String) (vals : List Lval)
    (hlen : names.length = vals.length) (hvals : lval_del_cells vals = .ok ())
    (henv : lenv_del e = .ok ()) :
    builtin_def_loop e (names.map Lval.sym) vals = .ok (put_all e names vals) := by
  induction names generalizing e vals with
  | nil => simp [builtin_def_loop, put_all]
  | cons k names ih =>
      cases vals with
      | nil => simp at hlen
      | cons v vals =>
          have hmem := (lval_del_cells_ok_iff (v :: vals)).mp hvals
          have hv : lval_del v = .ok () := hmem v (by simp)
          have hrest : ∀ y ∈ vals, lval_del y = .ok () :=
            fun y hy => hmem y (List.mem_cons_of_mem v hy)
          simp only [List.map, builtin_def_loop, put_all, lenv_put_eq e k v henv]
          exact ih (lenv_put_result e k v) vals (by simpa using hlen)
            ((lval_del_cells_ok_iff vals).mpr hrest) (lenv_del_put_result e k v henv hv)

theorem lenv_get_put_all_other (e : Lenv) (names : List String) (vals : List Lval)
    (k : String) (hk : k ∉ names) :
    lenv_get (put_all e names vals) k = lenv_get e k := by
  induction names generalizing e vals with
  | nil => simp [put_all]
  | cons n names ih =>
      cases vals with
      | nil => simp [put_all]
      | cons v vals =>
          simp only [put_all]
          have h1 : k ≠ n := fun h => hk (by simp [h])
          have h2 : k ∉ names := fun h => hk (by simp [h])
          rw [ih (lenv_put_result e n v) vals h2, lenv_get_put_other e n k v h1]

theorem lenv_get_put_all_last (e : Lenv) (names : List String) (vals : List Lval)
    (i : Nat) (k : String) (v : Lval) (hk : names[i]? = some k) (hv : vals[i]? = some v)
    (hlast : ∀ j, i < j → names[j]? ≠ some k) :
    lenv_get (put_all e names vals) k = v := by
  induction names generalizing e vals i with
  | nil => simp at hk
  | cons n names ih =>
      cases vals with
      | nil => simp at hv
      | cons w vals =>
          simp only [put_all]
          cases i with
          | zero =>
              simp at hk hv
              subst hk
              subst hv
              have hnot : n ∉ names := by
                intro hmem
                obtain ⟨j, hj, hjn⟩ := List.getElem_of_mem hmem
                exact hlast (j + 1) (Nat.succ_pos j) (by simp [hj, hjn])
              rw [lenv_get_put_all_other _ names vals n hnot, lenv_get_put_same]
          | succ i =>
              apply ih (lenv_put_result e n w) vals i
              · simpa using hk
              · simpa using hv
              · intro j hj
                have := hlast (j + 1) (Nat.succ_lt_succ hj)
                simpa using this

theorem lval_del_cells_syms (names : List String) :
    lval_del_cells (names.map Lval.sym) = .ok () := by
  rw [lval_del_cells_ok_iff]
  intro y hy
  obtain ⟨k, _, rfl⟩ := List.mem_map.mp hy
  rfl

theorem builtin_def_eq_put_all (e : Lenv) (names : List String) (vals : List Lval)
    (hlen : names.length = vals.length) (hvals : lval_del_cells vals = .ok ())
    (henv : lenv_del e = .ok ()) :
    builtin_def e (.qexpr (names.map Lval.sym) :: vals)
      = .ok (put_all e names vals, .sexpr []) := by
  have hall : (names.map Lval.sym).all Lval.is_sym = true := by
    simp [List.all_eq_true, Lval.is_sym]
  have hcount : (((names.map Lval.sym).length : Nat) : Int)
      = (((Lval.qexpr (names.map Lval.sym) :: vals).length : Nat) : Int) - 1 := by
    simp [hlen]
  have hdel : lval_del_cells (Lval.qexpr (names.map Lval.sym) :: vals) = .ok () := by
    rw [lval_del_cells_cons]
    simp [lval_del, lval_del_cells_syms, hvals, after_del]
  simp only [builtin_def, hall, hcount, if_true,
    builtin_def_loop_eq e names vals hlen hvals henv, hdel, after_del, lval_sexpr]

/-- C5 (as stated, refuted): `def {x x} {a} {b}` is a Q-expression of two
Symbols followed by two values, and afterwards `x` looks up to `{b}`, not to
the first value `{a}`. -/
theorem builtin_def_repeated_symbol :
    builtin_def lenv_new
        [.qexpr [.sym "x", .sym "x"], .qexpr [.sym "a"], .qexpr [.sym "b"]]
      = .ok ([("x", .qexpr [.sym "b"])], .sexpr [])
    ∧ lenv_get [("x", .qexpr [.sym "b"])] "x" = .qexpr [.sym "b"]
    ∧ Lval.qexpr [.sym "b"] ≠ Lval.qexpr [.sym "a"] := by
  refine ⟨rfl, rfl, ?_⟩
  simp

/-- C5 (amended): for a Q-expression of n Symbols followed by exactly n values,
in a run where the deletions complete (of the values and of the values already
in the environment), `builtin_def` returns the empty S-expression; afterwards
every symbol that does not occur again later in the list looks up to its value
(so every symbol does when the symbols are pairwise distinct), every name
outside the list looks up as before; and after `def {x} {a}` in the initial
environment `x` evaluates to `{a}`. -/
theorem builtin_def_binds_last_occurrence (e : Lenv) (names : List String)
    (vals : List Lval) (hlen : names.length = vals.length)
    (hvals : lval_del_cells vals = .ok ()) (henv : lenv_del e = .ok ()) :
    ∃ e1, builtin_def e (.qexpr (names.map Lval.sym) :: vals) = .ok (e1, .sexpr [])
      ∧ (∀ (i : Nat) (k : String) (v : Lval), names[i]? = some k → vals[i]? = some v →
          (∀ j, i < j → names[j]? ≠ some k) → lenv_get e1 k = v)
      ∧ (names.Nodup → ∀ (i : Nat) (k : String) (v : Lval), names[i]? = some k → vals[i]? = some v →
          lenv_get e1 k = v)
      ∧ (∀ k, k ∉ names → lenv_get e1 k = lenv_get e k)
      ∧ (∃ e2, lval_eval 1 initial_env
              (.sexpr [.sym "def", .qexpr [.sym "x"], .qexpr [.sym "a"]])
            = .ok (e2, .sexpr [])
          ∧ lval_eval 0 e2 (.sym "x") = .ok (e2, .qexpr [.sym "a"])) := by
  refine ⟨put_all e names vals, builtin_def_eq_put_all e names vals hlen hvals henv,
    ?_, ?_, ?_, ?_⟩
  · intro i k v hk hv hlast
    exact lenv_get_put_all_last e names vals i k v hk hv hlast
  · intro hnd i k v hk hv
    apply lenv_get_put_all_last e names vals i k v hk hv
    intro j hij hj
    rw [List.getElem?_eq_some] at hk hj
    obtain ⟨h1, h2⟩ := hk
    obtain ⟨h3, h4⟩ := hj
    have := (List.Nodup.getElem_inj_iff hnd).mp (h2.trans h4.symm)
    omega
  · intro k hk
    exact lenv_get_put_all_other e names vals k hk
  · exact ⟨initial_env ++ [("x", Lval.qexpr [.sym "a"])], rfl, rfl⟩

/-- C5 (amended) at `def {x y} {a} {b}` in the initial environment. -/
theorem builtin_def_binds_last_occurrence_witness :
    ∃ e1, builtin_def initial_env
          (.qexpr (["x", "y"].map Lval.sym) :: [.qexpr [.sym "a"], .qexpr [.sym "b"]])
        = .ok (e1, .sexpr [])
      ∧ (∀ (i : Nat) (k : String) (v : Lval), ["x", "y"][i]? = some k →
          [Lval.qexpr [.sym "a"], Lval.qexpr [.sym "b"]][i]? = some v →
          (∀ j, i < j → ["x", "y"][j]? ≠ some k) → lenv_get e1 k = v)
      ∧ (["x", "y"].Nodup → ∀ (i : Nat) (k : String) (v : Lval), ["x", "y"][i]? = some k →
          [Lval.qexpr [.sym "a"], Lval.qexpr [.sym "b"]][i]? = some v → lenv_get e1 k = v)
      ∧ (∀ k, k ∉ ["x", "y"] → lenv_get e1 k = lenv_get initial_env k)
      ∧ (∃ e2, lval_eval 1 initial_env
              (.sexpr [.sym "def", .qexpr [.sym "x"], .qexpr [.sym "a"]])
            = .ok (e2, .sexpr [])
          ∧ lval_eval 0 e2 (.sym "x") = .ok (e2, .qexpr [.sym "a"])) :=
  builtin_def_binds_last_occurrence initial_env ["x", "y"]
    [.qexpr [.sym "a"], .qexpr [.sym "b"]] (by decide) rfl rfl

/-! ## Names stay unique -/

/-- Binding a name that is bound replaces the value of its first entry in place. -/
theorem lenv_put_result_bound (e : Lenv) (k : String) (v : Lval)
    (h : k ∈ e.map Prod.fst) :
    ∃ pre old post, e = pre ++ (k, old) :: post ∧ k ∉ pre.map Prod.fst
      ∧ lenv_put_result e k v = pre ++ (k, v) :: post := by
  induction e with
  | nil => simp at h
  | cons p rest ih =>
      obtain ⟨s, x⟩ := p
      by_cases hs : s = k
      · subst hs
        exact ⟨[], x, rest, by simp, by simp, by simp [lenv_put_result]⟩
      · have hrest : k ∈ rest.map Prod.fst := by
          simp only [List.map, List.mem_cons] at h
          rcases h with h | h
          · exact absurd h.symm hs
          · exact h
        obtain ⟨pre, old, post, h1, h2, h3⟩ := ih hrest
        refine ⟨(s, x) :: pre, old, post, by simp [h1], ?_,
          by simp [lenv_put_result, hs, h3]⟩
        simp only [List.map, List.mem_cons, not_or]
        exact ⟨fun hk => hs hk.symm, h2⟩

theorem lenv_put_result_unbound (e : Lenv) (k : String) (v : Lval)
    (h : k ∉ e.map Prod.fst) :
    lenv_put_result e k v = e ++ [(k, v)] := by
  induction e with
  | nil => simp [lenv_put_result]
  | cons p rest ih =>
      obtain ⟨s, x⟩ := p
      simp only [List.map, List.mem_cons, not_or] at h
      have hs : ¬ (s = k) := fun hk => h.1 hk.symm
      simp [lenv_put_result, hs, ih h.2]

theorem lenv_put_result_nodup (e : Lenv) (k : String) (v : Lval)
    (h : (e.map Prod.fst).Nodup) :
    ((lenv_put_result e k v).map Prod.fst).Nodup := by
  by_cases hk : k ∈ e.map Prod.fst
  · obtain ⟨pre, old, post, h1, _, h3⟩ := lenv_put_result_bound e k v hk
    rw [h3]
    rw [h1] at h
    simpa using h
  · rw [lenv_put_result_unbound e k v hk]
    rw [List.map_append, List.nodup_append]
    refine ⟨h, by simp, ?_⟩
    intro a ha hb
    simp at hb
    subst hb
    exact hk ha

/-- A call of `lenv_put` that completes keeps the names pairwise distinct. -/
theorem lenv_put_ok_nodup (e e1 : Lenv) (k : String) (v : Lval)
    (h : (e.map Prod.fst).Nodup) (hput : lenv_put e k v = .ok e1) :
    (e1.map Prod.fst).Nodup := by
  rcases lenv_put_cases e k v with h1 | h1
  · rw [h1] at hput
    simp only [Outcome.ok.injEq] at hput
    subst hput
    exact lenv_put_result_nodup e k v h
  · rw [h1] at hput
    cases hput

/-- C6: `def {x} 5` then `def {x} 6`. The first `lenv_put` binds `x` to 5, and
`builtin_def` then stops in `lval_del(a)`, `a` holding the Number 5: the
line `def {x} 5` returns nothing. With `x` bound to 5, `lenv_put(e, x, 6)`
stops in `lval_del(e->vals[i])`, the value to replace being a Number: the
entry for `x` never comes to hold 6. -/
theorem lenv_put_rebind_deletes_number :
    lenv_put lenv_new "x" (.num 5) = .ok [("x", .num 5)]
    ∧ lenv_put [("x", .num 5)] "x" (.num 6) = .fault .uninit_field
    ∧ builtin_def_loop initial_env [.sym "x"] [.num 5]
      = .ok (initial_env ++ [("x", .num 5)])
    ∧ builtin_def initial_env [.qexpr [.sym "x"], .num 5] = .fault .uninit_field
    ∧ lval_eval 1 initial_env (.sexpr [.sym "def", .qexpr [.sym "x"], .num 5])
      = .fault .uninit_field
    ∧ builtin_def (initial_env ++ [("x", .num 5)]) [.qexpr [.sym "x"], .num 6]
      = .fault .uninit_field :=
  ⟨rfl, rfl, rfl, rfl, rfl, rfl⟩

/-! ## A failed def -/

/-- C7: when `builtin_def`, called on a non-empty argument list, returns an
Error, the environment it leaves is the one it was given. -/
theorem builtin_def_error_leaves_env (e e1 : Lenv) (a : List Lval) (x : Lval)
    (_hne : a ≠ []) (h : builtin_def e a = .ok (e1, x)) (hx : x.is_err = true) :
    e1 = e := by
  cases a with
  | nil => simp [builtin_def] at h
  | cons first vals =>
      have herr : ∀ (d : Outcome Unit) (msg : String),
          after_del d (.ok (e, lval_err msg)) = .ok (e1, x) → e1 = e := by
        intro d msg hd
        have h2 := (after_del_ok_inv d _ _ hd).2
        simp only [Outcome.ok.injEq, Prod.mk.injEq] at h2
        exact h2.1.symm
      cases first with
      | qexpr syms =>
          simp only [builtin_def] at h
          by_cases hall : syms.all Lval.is_sym = true
          · rw [if_pos hall] at h
            by_cases hcount : (syms.length : Int)
                = ((Lval.qexpr syms :: vals).length : Int) - 1
            · rw [if_pos hcount] at h
              cases hl : builtin_def_loop e syms vals with
              | ok e2 =>
                  simp only [hl] at h
                  have h2 := (after_del_ok_inv _ _ _ h).2
                  simp only [Outcome.ok.injEq, Prod.mk.injEq] at h2
                  obtain ⟨_, rfl⟩ := h2
                  simp [lval_sexpr, Lval.is_err] at hx
              | fault f => simp [hl] at h
              | timeout => simp [hl] at h
            · rw [if_neg hcount] at h
              exact herr _ _ h
          · rw [if_neg hall] at h
            exact herr _ _ h
      | num _ => exact herr _ _ (by simpa only [builtin_def] using h)
      | err _ => exact herr _ _ (by simpa only [builtin_def] using h)
      | sym _ => exact herr _ _ (by simpa only [builtin_def] using h)
      | builtin _ => exact herr _ _ (by simpa only [builtin_def] using h)
      | lambda _ _ _ => exact herr _ _ (by simpa only [builtin_def] using h)
      | sexpr _ => exact herr _ _ (by simpa only [builtin_def] using h)

/-- C7 at `def {x}` (one symbol, no value) in the initial environment. -/
theorem builtin_def_error_leaves_env_witness :
    builtin_def initial_env [.qexpr [.sym "x"]]
      = .ok (initial_env,
          .err "Function 'def' cannont define incorrect number of values to symbols")
    ∧ initial_env = initial_env :=
  ⟨rfl, builtin_def_error_leaves_env initial_env initial_env
    [.qexpr [.sym "x"]]
    (.err "Function 'def' cannont define incorrect number of values to symbols")
    (by simp) rfl rfl⟩

/-! ## Reading a literal and printing it -/

theorem toDigitsCore_eq (n : Nat) : ∀ (fuel : Nat) (ds : List Char), n < fuel →
    Nat.toDigitsCore 10 fuel n ds = Nat.toDigits 10 n ++ ds := by
  induction n using Nat.strong_induction_on with
  | _ n ih =>
    intro fuel ds hf
    cases fuel with
    | zero => omega
    | succ f =>
      by_cases h0 : n / 10 = 0
      · simp [Nat.toDigitsCore, Nat.toDigits, h0]
      · have hlt : n / 10 < n := Nat.div_lt_self (by omega) (by decide)
        have e1 : Nat.toDigitsCore 10 (f + 1) n ds
            = Nat.toDigitsCore 10 f (n / 10) (Nat.digitChar (n % 10) :: ds) := by
          simp [Nat.toDigitsCore, h0]
        have e2 : Nat.toDigits 10 n
            = Nat.toDigitsCore 10 n (n / 10) [Nat.digitChar (n % 10)] := by
          simp [Nat.toDigits, Nat.toDigitsCore, h0]
        rw [e1, e2, ih (n / 10) hlt f _ (by omega), ih (n / 10) hlt n _ hlt]
        simp

theorem toDigits_small (n : Nat) (h : n < 10) :
    Nat.toDigits 10 n = [Nat.digitChar n] := by
  have h0 : n / 10 = 0 := Nat.div_eq_of_lt h
  have hm : n % 10 = n := Nat.mod_eq_of_lt h
  simp [Nat.toDigits, Nat.toDigitsCore, h0, hm]

theorem toDigits_big (n : Nat) (h : 10 ≤ n) :
    Nat.toDigits 10 n = Nat.toDigits 10 (n / 10) ++ [Nat.digitChar (n % 10)] := by
  have h0 : n / 10 ≠ 0 := by
    have : 1 ≤ n / 10 := (Nat.le_div_iff_mul_le (by decide)).mpr (by omega)
    omega
  have hlt : n / 10 < n := Nat.div_lt_self (by omega) (by decide)
  have e2 : Nat.toDigits 10 n
      = Nat.toDigitsCore 10 n (n / 10) [Nat.digitChar (n % 10)] := by
    simp [Nat.toDigits, Nat.toDigitsCore, h0]
  rw [e2, toDigitsCore_eq (n / 10) n _ hlt]

theorem digitChar_value (n : Nat) (h : n < 10) :
    (Nat.digitChar n).isDigit = true ∧ (Nat.digitChar n).toNat - '0'.toNat = n := by
  interval_cases n <;> decide

theorem strtol_digits_append (l r : List Char) (acc : Nat)
    (hl : ∀ c ∈ l, c.isDigit = true) :
    strtol_digits acc (l ++ r) = strtol_digits (strtol_digits acc l) r := by
  induction l generalizing acc with
  | nil => simp [strtol_digits]
  | cons c cs ih =>
      have hc : c.isDigit = true := hl c (by simp)
      simp only [List.cons_append, strtol_digits, hc, if_true]
      exact ih _ (fun d hd => hl d (by simp [hd]))

/-- The decimal digits `printf` writes for `n` are digits, and `strtol` reads
`n` back from them. -/
theorem strtol_digits_toDigits (n : Nat) :
    (∀ c ∈ Nat.toDigits 10 n, c.isDigit = true)
    ∧ strtol_digits 0 (Nat.toDigits 10 n) = n := by
  induction n using Nat.strong_induction_on with
  | _ n ih =>
    by_cases h : n < 10
    · rw [toDigits_small n h]
      obtain ⟨h1, h2⟩ := digitChar_value n h
      constructor
      · intro c hc
        simp only [List.mem_singleton] at hc
        rw [hc]
        exact h1
      · simp only [strtol_digits, h1, if_true, h2]
        omega
    · have hge : 10 ≤ n := by omega
      have hlt : n / 10 < n := Nat.div_lt_self (by omega) (by decide)
      obtain ⟨ihd, ihv⟩ := ih (n / 10) hlt
      obtain ⟨h1, h2⟩ := digitChar_value (n % 10) (Nat.mod_lt n (by decide))
      rw [toDigits_big n hge]
      constructor
      · intro c hc
        rcases List.mem_append.mp hc with hc | hc
        · exact ihd c hc
        · simp only [List.mem_singleton] at hc
          rw [hc]
          exact h1
      · rw [strtol_digits_append _ _ _ ihd, ihv]
        simp only [strtol_digits, h1, if_true, h2]
        omega

theorem toDigits_head (n : Nat) :
    ∃ c cs, Nat.toDigits 10 n = c :: cs ∧ c.isDigit = true := by
  obtain ⟨hd, _⟩ := strtol_digits_toDigits n
  cases hl : Nat.toDigits 10 n with
  | nil =>
      by_cases h : n < 10
      · rw [toDigits_small n h] at hl
        simp at hl
      · rw [toDigits_big n (by omega)] at hl
        simp at hl
  | cons c cs =>
      exact ⟨c, cs, rfl, hd c (by rw [hl]; simp)⟩

theorem isDigit_not_space (c : Char) (h : c.isDigit = true) :
    isspace c = false ∧ c ≠ '-' ∧ c ≠ '+' := by
  refine ⟨?_, ?_, ?_⟩
  · simp only [isspace, Bool.or_eq_false_iff, decide_eq_false_iff_not]
    refine ⟨⟨⟨⟨⟨?_, ?_⟩, ?_⟩, ?_⟩, ?_⟩, ?_⟩ <;>
      (intro hc; rw [hc] at h; revert h; decide)
  · intro hc; rw [hc] at h; revert h; decide
  · intro hc; rw [hc] at h; revert h; decide

/-- The libc `strtol` reads back every `long` from what `printf("%li")` writes. -/
theorem strtol_toString (n : Int) (hlo : LONG_MIN ≤ n) (hhi : n ≤ LONG_MAX) :
    strtol (toString n) = (n, false) := by
  cases n with
  | ofNat m =>
      have hdata : (toString (Int.ofNat m)).data = Nat.toDigits 10 m := rfl
      obtain ⟨c, cs, hcs, hc⟩ := toDigits_head m
      obtain ⟨hsp, hminus, hplus⟩ := isDigit_not_space c hc
      have hval := (strtol_digits_toDigits m).2
      have hm : ¬ (m > 9223372036854775807) := by
        simp only [LONG_MAX] at hhi
        have : (m : Int) ≤ 9223372036854775807 := hhi
        omega
      unfold strtol
      rw [hdata, hcs]
      simp only [List.dropWhile, hsp]
      split
      · rename_i heq
        simp only [List.cons.injEq] at heq
        exact absurd heq.1 hminus
      · rename_i heq
        simp only [List.cons.injEq] at heq
        exact absurd heq.1 hplus
      · rw [← hcs, hval]
        simp [hm]
  | negSucc m =>
      have hdata : (toString (Int.negSucc m)).data = '-' :: Nat.toDigits 10 (m + 1) := rfl
      have hval := (strtol_digits_toDigits (m + 1)).2
      have hm : ¬ (m + 1 > 9223372036854775808) := by
        simp only [LONG_MIN] at hlo
        have : (-9223372036854775808 : Int) ≤ Int.negSucc m := hlo
        rw [Int.negSucc_eq] at this
        omega
      have hsp : isspace '-' = false := by decide
      unfold strtol
      rw [hdata]
      simp only [List.dropWhile, hsp, hval]
      simp only [hm, if_false]
      rw [Int.negSucc_eq]
      simp

/-- C8 (as stated, refuted): the number literal `007` matches `-?digits` and
fits a `long`; it is read as the Number 7, which prints as `7`, not `007`. -/
theorem lval_read_print_leading_zeros :
    strstr "expr|number|regex" "number" = true
    ∧ lval_read (.mk "expr|number|regex" "007" []) = .ok (.num 7)
    ∧ lval_print (.num 7) = "7"
    ∧ "7" ≠ "007" := by
  refine ⟨rfl, rfl, rfl, ?_⟩
  decide

/-- C8 (amended): a node whose tag contains `number` and whose text is the
decimal form that `%li` gives an integer `n` of the `long` range (no redundant
leading zero, no `-0`) is read as the Number `n` and printed as that text; a
node whose tag contains `symbol` and not `number` is read as a Symbol and
printed as its text, whatever the text is. -/
theorem lval_read_print_literal (numtag symtag : String) (children : List mpc_ast_t)
    (n : Int) (contents : String)
    (hnum : strstr numtag "number" = true)
    (hlo : LONG_MIN ≤ n) (hhi : n ≤ LONG_MAX)
    (hsym1 : strstr symtag "number" = false) (hsym2 : strstr symtag "symbol" = true) :
    (lval_read (.mk numtag (toString n) children) = .ok (.num n)
      ∧ lval_print (.num n) = toString n)
    ∧ (lval_read (.mk symtag contents children) = .ok (.sym contents)
      ∧ lval_print (.sym contents) = contents) := by
  refine ⟨⟨?_, ?_⟩, ?_, ?_⟩
  · simp only [lval_read, hnum, if_true, lval_read_num, strtol_toString n hlo hhi, lval_num]
  · simp only [lval_print]
  · simp [lval_read, hsym1, hsym2, lval_sym]
  · simp only [lval_print]

/-- C8 (amended) at the literals `-42` and `foo`, tagged as the grammar tags them. -/
theorem lval_read_print_literal_witness :
    (lval_read (.mk "expr|number|regex" (toString (-42 : Int)) []) = .ok (.num (-42))
      ∧ lval_print (.num (-42)) = toString (-42 : Int))
    ∧ (lval_read (.mk "expr|symbol|regex" "foo" []) = .ok (.sym "foo")
      ∧ lval_print (.sym "foo") = "foo") :=
  lval_read_print_literal "expr|number|regex" "expr|symbol|regex" [] (-42) "foo"
    rfl (by decide) (by decide) rfl rfl


/-! ## Self-evaluating values -/

/-- C9: a Number, Error, Q-expression or Function evaluates to itself, with any
fuel, and the environment is unchanged; evaluating the result again gives the
same result. -/
theorem lval_eval_self_evaluating (fuel : Nat) (e : Lenv) (v : Lval)
    (h : v.type = .LVAL_NUM ∨ v.type = .LVAL_ERR ∨ v.type = .LVAL_QEXPR
      ∨ v.type = .LVAL_FUN) :
    lval_eval fuel e v = .ok (e, v)
    ∧ ∃ e1 v1, lval_eval fuel e v = .ok (e1, v1) ∧ lval_eval fuel e1 v1 = .ok (e1, v1) := by
  have h1 : lval_eval fuel e v = .ok (e, v) := by
    cases v <;> first
      | (cases fuel <;> rfl)
      | (simp [Lval.type] at h)
  exact ⟨h1, e, v, h1, h1⟩

/-- C9 at the Q-expression `{nobody (+ 1)}`, with no fuel at all. -/
theorem lval_eval_self_evaluating_witness :
    lval_eval 0 initial_env (.qexpr [.sym "nobody", .sexpr [.sym "+", .num 1]])
      = .ok (initial_env, .qexpr [.sym "nobody", .sexpr [.sym "+", .num 1]])
    ∧ ∃ e1 v1, lval_eval 0 initial_env (.qexpr [.sym "nobody", .sexpr [.sym "+", .num 1]])
        = .ok (e1, v1) ∧ lval_eval 0 e1 v1 = .ok (e1, v1) :=
  lval_eval_self_evaluating 0 initial_env (.qexpr [.sym "nobody", .sexpr [.sym "+", .num 1]])
    (Or.inr (Or.inr (Or.inl rfl)))


/-! ## head -/

theorem after_del_after_del {α : Type} (d1 d2 : Outcome Unit) (next : Outcome α) :
    after_del d1 (after_del d2 next) = after_del (after_del d1 d2) next := by
  cases d1 <;> rfl

/-- The loop of `builtin_head` deletes the cells after the first, in order. -/
theorem builtin_head_loop_eq (x0 : Lval) (xs : List Lval) (fuel : Nat)
    (h : xs.length ≤ fuel) :
    builtin_head_loop fuel (x0 :: xs) = after_del (lval_del_cells xs) (.ok [x0]) := by
  induction xs generalizing fuel with
  | nil => cases fuel <;> simp [builtin_head_loop, lval_del_cells, after_del]
  | cons y ys ih =>
      cases fuel with
      | zero => simp at h
      | succ f =>
          have hlen : (x0 :: y :: ys).length > 1 := by simp
          have hf : ys.length ≤ f := by simpa using h
          simp only [builtin_head_loop, hlen, if_true, lval_pop, List.get?_cons_succ,
            List.get?_cons_zero, List.eraseIdx_cons_succ, List.eraseIdx_cons_zero, ih f hf,
            lval_del_cells_cons, after_del_after_del]

/-- On one non-empty Q-expression, `builtin_head` deletes the excess cells and
returns the Q-expression of the first. -/
theorem builtin_head_eq (e : Lenv) (x0 : Lval) (xs : List Lval) :
    builtin_head e [.qexpr (x0 :: xs)]
      = after_del (lval_del_cells xs) (.ok (e, .qexpr [x0])) := by
  have hlen : ¬ ((x0 :: xs).length = 0) := by simp
  simp only [builtin_head, hlen, if_false,
    builtin_head_loop_eq x0 xs (x0 :: xs).length (by simp)]
  cases lval_del_cells xs <;> rfl

/-- C10: `head {1 2 3}`. After `lval_take(a, 0)` the loop runs
`lval_del(lval_pop(v, 1))` on the Number 2, which reads the never-written
`builtin` field: `builtin_head` returns nothing, and neither does the
evaluator on the line. When the excess cells are Symbols (`head {a b}`) the
Q-expression of the first cell is returned. -/
theorem builtin_head_deletes_number (e : Lenv) :
    builtin_head e [.qexpr [.num 1, .num 2, .num 3]] = .fault .uninit_field
    ∧ lval_eval 1 initial_env (.sexpr [.sym "head", .qexpr [.num 1, .num 2, .num 3]])
      = .fault .uninit_field
    ∧ builtin_head e [.qexpr [.sym "a", .sym "b"]] = .ok (e, .qexpr [.sym "a"]) :=
  ⟨rfl, rfl, rfl⟩

/-! ## tail -/

/-- On one non-empty Q-expression, `builtin_tail` deletes the first cell and
returns the Q-expression of the others. -/
theorem builtin_tail_eq (e : Lenv) (x0 : Lval) (xs : List Lval) :
    builtin_tail e [.qexpr (x0 :: xs)]
      = after_del (lval_del x0) (.ok (e, .qexpr xs)) := by
  have hlen : ¬ ((x0 :: xs).length = 0) := by simp
  simp only [builtin_tail, hlen, if_false, lval_pop, List.get?_cons_zero,
    List.eraseIdx_cons_zero]

/-- C11: `tail {1 2 3}`. `lval_del(lval_pop(v, 0))` runs on the Number 1 and
reads the never-written `builtin` field: `builtin_tail` returns nothing, also
on the one-element list `{1}`, and neither does the evaluator on the line. When
the first cell is a Symbol (`tail {a b c}`) the others are returned in order. -/
theorem builtin_tail_deletes_number (e : Lenv) :
    builtin_tail e [.qexpr [.num 1, .num 2, .num 3]] = .fault .uninit_field
    ∧ builtin_tail e [.qexpr [.num 1]] = .fault .uninit_field
    ∧ lval_eval 1 initial_env (.sexpr [.sym "tail", .qexpr [.num 1, .num 2, .num 3]])
      = .fault .uninit_field
    ∧ builtin_tail e [.qexpr [.sym "a", .sym "b", .sym "c"]]
      = .ok (e, .qexpr [.sym "b", .sym "c"]) :=
  ⟨rfl, rfl, rfl, rfl⟩

/-! ## head and tail: rejected argument lists -/

/-- C12: `head 1` and `tail 1`. The argument is not a Q-expression, the failed
check builds the Error and runs `lval_del(a)`, `a` holding the Number 1:
no Error is returned, by the builtins or by the evaluator on the lines; the
same on two arguments of which one is a Number. On `{}`, where `a` holds no
Number, both return their Error and leave the environment alone. -/
theorem builtin_head_tail_reject_deletes_number (e : Lenv) :
    builtin_head e [.num 1] = .fault .uninit_field
    ∧ builtin_tail e [.num 1] = .fault .uninit_field
    ∧ builtin_head e [.qexpr [.sym "a"], .num 1] = .fault .uninit_field
    ∧ builtin_tail e [.qexpr [.sym "a"], .num 1] = .fault .uninit_field
    ∧ lval_eval 1 initial_env (.sexpr [.sym "head", .num 1]) = .fault .uninit_field
    ∧ lval_eval 1 initial_env (.sexpr [.sym "tail", .num 1]) = .fault .uninit_field
    ∧ builtin_head e [.qexpr []] = .ok (e, .err "Function 'head' passed \x7b\x7d!")
    ∧ builtin_tail e [.qexpr []] = .ok (e, .err "Function 'tail' passed \x7b\x7d!") :=
  ⟨rfl, rfl, rfl, rfl, rfl, rfl, rfl, rfl⟩

/-! ## join -/

theorem lval_join_eq (x y : List Lval) : lval_join x y = x ++ y := by
  induction y generalizing x with
  | nil => simp [lval_join]
  | cons c y ih => simp [lval_join, lval_add, ih]

theorem builtin_join_loop_eq (x : List Lval) (qs : List (List Lval)) :
    builtin_join_loop x (qs.map Lval.qexpr) = .ok (x ++ qs.flatten) := by
  induction qs generalizing x with
  | nil => simp [builtin_join_loop]
  | cons q qs ih =>
      simp only [List.map_cons, builtin_join_loop, lval_join_eq, ih, List.flatten_cons,
        List.append_assoc]

/-- On a non-empty list of Q-expressions `builtin_join` returns the
Q-expression of their cells, in order. -/
theorem builtin_join_eq (e : Lenv) (q : List Lval) (qs : List (List Lval)) :
    builtin_join e ((q :: qs).map Lval.qexpr) = .ok (e, .qexpr (q :: qs).flatten) := by
  have hall : ((q :: qs).map Lval.qexpr).all Lval.is_qexpr = true := by
    simp [List.all_eq_true, Lval.is_qexpr]
  rw [List.map_cons] at hall
  simp only [builtin_join, hall, if_true, lval_pop, List.map_cons, List.get?_cons_zero,
    List.eraseIdx_cons_zero, builtin_join_loop_eq, List.flatten_cons]

/-- C13: `join {1} 2`. The second argument is not a Q-expression, the failed
check builds the Error and runs `lval_del(a)`, `a` holding `{1}` and 2;
the deletion reaches the Number 1 and reads its never-written `builtin` field:
no Error is returned, by `builtin_join` or by the evaluator on the line. The
concatenation itself deletes only emptied lists: `join {1 2} {3}` evaluates
to `{1 2 3}`. -/
theorem builtin_join_reject_deletes_number (e : Lenv) :
    builtin_join e [.qexpr [.num 1], .num 2] = .fault .uninit_field
    ∧ lval_eval 1 initial_env (.sexpr [.sym "join", .qexpr [.num 1], .num 2])
      = .fault .uninit_field
    ∧ builtin_join e [.qexpr [.num 1, .num 2], .qexpr [.num 3]]
      = .ok (e, .qexpr [.num 1, .num 2, .num 3])
    ∧ lval_eval 1 initial_env
        (.sexpr [.sym "join", .qexpr [.num 1, .num 2], .qexpr [.num 3]])
      = .ok (initial_env, .qexpr [.num 1, .num 2, .num 3]) :=
  ⟨rfl, rfl, rfl, rfl⟩

/-! ## eval -/

/-- On one Q-expression, `builtin_eval` is the evaluator on the S-expression
with the same cells. -/
theorem builtin_eval_eq (ev : Lenv → Lval → Outcome (Lenv × Lval)) (e : Lenv)
    (x : List Lval) : builtin_eval ev e [.qexpr x] = ev e (.sexpr x) := rfl

/-- C14: `eval {+ 1 2}` and `eval (list + 1 2)`. `builtin_eval` hands
`(+ 1 2)` to `lval_eval`, and `builtin_op` stops in `lval_del(y)` on the
Number 2: neither line gives 3. On an argument that is not a Q-expression
(`eval 1`) or on two arguments (`eval {a} 1`) the failed check runs
`lval_del(a)` on a list holding a Number: no Error is returned. -/
theorem builtin_eval_deletes_number (e : Lenv) :
    builtin_eval (lval_eval 1) initial_env [.qexpr [.sym "+", .num 1, .num 2]]
      = lval_eval 1 initial_env (.sexpr [.sym "+", .num 1, .num 2])
    ∧ lval_eval 1 initial_env (.sexpr [.sym "+", .num 1, .num 2]) = .fault .uninit_field
    ∧ lval_eval 2 initial_env (.sexpr [.sym "eval", .qexpr [.sym "+", .num 1, .num 2]])
      = .fault .uninit_field
    ∧ lval_eval 3 initial_env
        (.sexpr [.sym "eval", .sexpr [.sym "list", .sym "+", .num 1, .num 2]])
      = .fault .uninit_field
    ∧ (∀ ev : Lenv → Lval → Outcome (Lenv × Lval),
        builtin_eval ev e [.num 1] = .fault .uninit_field
        ∧ builtin_eval ev e [.qexpr [.sym "a"], .num 1] = .fault .uninit_field) :=
  ⟨rfl, rfl, rfl, rfl, fun _ => ⟨rfl, rfl⟩⟩

/-! ## Arithmetic -/

/-- C15: `+ 1 2`. The loop of `builtin_op` adds 2 to 1 and then runs
`lval_del(y)` on the Number 2, which reads the never-written `builtin` field:
nothing is returned, for any of the four operators and any first two Numbers
(a `LONG_MIN / -1` stops one statement earlier). Only the one-argument case
returns: `- 5` gives -5, `+ 5`, `* 5` and `/ 5` give 5. -/
theorem builtin_op_deletes_number (e : Lenv) :
    builtin_op e [.num 1, .num 2] "+" = .fault .uninit_field
    ∧ builtin_op e [.num 10, .num 3, .num 2] "-" = .fault .uninit_field
    ∧ builtin_op e [.num 2, .num 3] "*" = .fault .uninit_field
    ∧ builtin_op e [.num 7, .num 2] "/" = .fault .uninit_field
    ∧ lval_eval 1 initial_env (.sexpr [.sym "+", .num 1, .num 2]) = .fault .uninit_field
    ∧ (∀ (op : String) (n : Int) (y : Lval) (rest : List Lval),
        ∃ f, builtin_op e (.num n :: y :: rest) op = .fault f)
    ∧ builtin_op e [.num 5] "-" = .ok (e, .num (-5))
    ∧ builtin_op e [.num 5] "+" = .ok (e, .num 5)
    ∧ builtin_op e [.num 5] "*" = .ok (e, .num 5)
    ∧ builtin_op e [.num 5] "/" = .ok (e, .num 5) :=
  ⟨rfl, rfl, rfl, rfl, rfl, builtin_op_two_args_never_returns e, rfl, rfl, rfl, rfl⟩

/-- C16: `+ 1 {2}`. The first loop of `builtin_op` finds the Q-expression and
runs `lval_del(a)`, `a` holding the Number 1: no Error is returned, by
`builtin_op` under any of the four operators or by the evaluator on the line.
On a list that holds no Number (`+ {a}`) the Error is returned and the
environment is left alone. -/
theorem builtin_op_reject_deletes_number (e : Lenv) :
    builtin_op e [.num 1, .qexpr [.num 2]] "+" = .fault .uninit_field
    ∧ builtin_op e [.num 1, .qexpr [.num 2]] "-" = .fault .uninit_field
    ∧ builtin_op e [.num 1, .qexpr [.num 2]] "*" = .fault .uninit_field
    ∧ builtin_op e [.num 1, .qexpr [.num 2]] "/" = .fault .uninit_field
    ∧ lval_eval 1 initial_env (.sexpr [.sym "+", .num 1, .qexpr [.num 2]])
      = .fault .uninit_field
    ∧ builtin_op e [.qexpr [.sym "a"]] "+"
      = .ok (e, .err "Cannot operate on non-number!") :=
  ⟨rfl, rfl, rfl, rfl, rfl, rfl⟩

/-! ## The head of an S-expression must be a Function -/

/-- The text of the type Error of `lval_eval_sexpr` fits the 511 bytes of `lval_err`. -/
theorem incorrect_type_message (t : Ltype) :
    lval_err ("S-expression starts with incorrect type. Got " ++ ltype_name t
        ++ ", Expected " ++ ltype_name .LVAL_FUN ++ ".")
      = .err ("S-expression starts with incorrect type. Got " ++ ltype_name t
        ++ ", Expected Function.") := by
  cases t <;> rfl

/-- C17: `(1 2 3)`. The children reduce to the three Numbers, the first is
popped and is not a Function; the Error is built, and `lval_del(f)` then
runs on the Number 1 and reads its never-written `builtin` field: no Error is
returned, whatever the function pointers would do. With a first child that
is not a Number and no Number among the others (`({} {})`) the Error is
returned. -/
theorem lval_eval_sexpr_non_function_deletes_number :
    lval_eval_cells (lval_eval 0) initial_env [.num 1, .num 2, .num 3]
      = .ok (initial_env, [.num 1, .num 2, .num 3])
    ∧ (∀ call : Lbuiltin → Lenv → List Lval → Outcome (Lenv × Lval),
        lval_eval_sexpr call (lval_eval 0) initial_env [.num 1, .num 2, .num 3]
          = .fault .uninit_field)
    ∧ lval_eval 1 initial_env (.sexpr [.num 1, .num 2, .num 3]) = .fault .uninit_field
    ∧ (∀ call : Lbuiltin → Lenv → List Lval → Outcome (Lenv × Lval),
        lval_eval_sexpr call (lval_eval 0) initial_env [.qexpr [], .qexpr []]
          = .ok (initial_env, .err
              "S-expression starts with incorrect type. Got Q-Expression, Expected Function.")) :=
  ⟨rfl, fun _ => rfl, rfl, fun _ => rfl⟩

/-- With no Error among two or more reduced children and a first child that is
not a Function, `lval_eval_sexpr` builds the type Error, deletes the first child
and the list of the others, and returns the Error; no function pointer is
called. -/
theorem lval_eval_sexpr_apply_non_function
    (call : Lbuiltin → Lenv → List Lval → Outcome (Lenv × Lval)) (e : Lenv)
    (f arg : Lval) (args : List Lval) (hf : f.is_fun = false)
    (hnone : ∀ y ∈ f :: arg :: args, y.is_err = false) :
    lval_eval_sexpr_apply call e (f :: arg :: args)
      = after_del (lval_del f) (after_del (lval_del_cells (arg :: args))
          (.ok (e, .err ("S-expression starts with incorrect type. Got "
            ++ ltype_name f.type ++ ", Expected Function.")))) := by
  have hscan := lval_eval_sexpr_scan_none (f :: arg :: args) hnone
  simp only [lval_eval_sexpr_apply, hscan]
  cases f with
  | builtin _ => simp [Lval.is_fun] at hf
  | lambda _ _ _ => simp [Lval.is_fun] at hf
  | num _ => simp only [incorrect_type_message]
  | err _ => simp only [incorrect_type_message]
  | sym _ => simp only [incorrect_type_message]
  | sexpr _ => simp only [incorrect_type_message]
  | qexpr _ => simp only [incorrect_type_message]

/-- With an argument that is not a Number, `builtin_op` deletes the argument
list and returns its Error. -/
theorem builtin_op_reject_eq (e : Lenv) (a : List Lval) (op : String) (x : Lval)
    (hx : x ∈ a) (hnn : x.is_num = false) :
    builtin_op e a op
      = after_del (lval_del_cells a) (.ok (e, .err "Cannot operate on non-number!")) := by
  have hall : a.all Lval.is_num = false := by
    rw [Bool.eq_false_iff]
    intro hall
    rw [List.all_eq_true] at hall
    rw [hall x hx] at hnn
    cases hnn
  simp only [builtin_op, hall]
  rfl

/-! ## Empty and singleton S-expressions -/

/-- An S-expression with one child: the result of the child, whatever it is. -/
theorem lval_eval_sexpr_single
    (call : Lbuiltin → Lenv → List Lval → Outcome (Lenv × Lval))
    (ev : Lenv → Lval → Outcome (Lenv × Lval)) (e : Lenv) (x : Lval) :
    lval_eval_sexpr call ev e [x] = ev e x := by
  simp only [lval_eval_sexpr, lval_eval_cells]
  cases hx : ev e x with
  | ok r =>
      obtain ⟨e1, v⟩ := r
      simp only [lval_eval_sexpr_apply, lval_eval_sexpr_scan]
      cases hv : v.is_err with
      | true => rfl
      | false => rfl
  | fault f => rfl
  | timeout => rfl

/-- C18: with any fuel but none, the empty S-expression evaluates to itself and
leaves the environment alone; an S-expression with one element `x` evaluates
exactly as `x` does, whatever the function pointers would do (none is called),
even when `x` reduces to a Function: `(+)` evaluates to the builtin and `(5)`
to 5. -/
theorem lval_eval_empty_and_single
    (call : Lbuiltin → Lenv → List Lval → Outcome (Lenv × Lval)) (fuel : Nat)
    (e : Lenv) (x : Lval) :
    lval_eval (fuel + 1) e (.sexpr []) = .ok (e, .sexpr [])
    ∧ lval_eval_sexpr call (lval_eval fuel) e [x] = lval_eval fuel e x
    ∧ lval_eval (fuel + 1) e (.sexpr [x]) = lval_eval fuel e x
    ∧ lval_eval 1 initial_env (.sexpr [.sym "+"]) = .ok (initial_env, .builtin .fn_add)
    ∧ lval_eval 1 initial_env (.sexpr [.num 5]) = .ok (initial_env, .num 5) := by
  refine ⟨rfl, lval_eval_sexpr_single call _ e x, ?_, rfl, rfl⟩
  simp only [lval_eval]
  exact lval_eval_sexpr_single _ _ e x

/-! ## The Reader -/

theorem lval_read_container_eq (tag : String) :
    lval_read_container tag
      = if strstr tag "qexpr" = true then some (.qexpr [])
        else if tag = ">" ∨ strstr tag "sexpr" = true then some (.sexpr []) else none := by
  unfold lval_read_container lval_qexpr lval_sexpr
  by_cases hq : strstr tag "qexpr" = true
  · simp [hq]
  · by_cases hs : strstr tag "sexpr" = true
    · simp [hq, hs]
    · by_cases hr : tag = ">"
      · simp [hq, hs, hr]
      · simp [hq, hs, hr]

/-- The loop of `lval_read` returns the reads of the kept children, in order. -/
theorem lval_read_loop_of_forall (children : List mpc_ast_t) (vs : List Lval)
    (h : List.Forall₂ (fun c v => lval_read c = .ok v) (kept_children children) vs) :
    lval_read_loop children = .ok vs := by
  induction children generalizing vs with
  | nil =>
      simp only [kept_children, List.filter_nil] at h
      cases h
      simp [lval_read_loop]
  | cons c cs ih =>
      by_cases hskip : lval_read_skip c = true
      · have hk : kept_children (c :: cs) = kept_children cs := by
          simp [kept_children, List.filter_cons, hskip]
        rw [hk] at h
        simp only [lval_read_loop, hskip, if_true]
        exact ih vs h
      · have hk : kept_children (c :: cs) = c :: kept_children cs := by
          simp [kept_children, List.filter_cons, hskip]
        rw [hk] at h
        cases h with
        | cons hc hrest =>
            rename_i v vs1
            simp only [lval_read_loop, hskip, hc, ih vs1 hrest]
            simp

mutual
/-- Reading a readable tree returns a Value. -/
theorem lval_read_readable : ∀ t : mpc_ast_t, t.readable = true → ∃ v, lval_read t = .ok v
  | .mk tag contents children, h => by
      by_cases hn : strstr tag "number" = true
      · exact ⟨lval_read_num contents, by simp only [lval_read, hn, if_true]⟩
      · by_cases hs : strstr tag "symbol" = true
        · exact ⟨lval_sym contents, by simp [lval_read, hn, hs]⟩
        · simp only [mpc_ast_t.readable, hn, hs, Bool.false_or, Bool.and_eq_true,
            Bool.or_eq_true, decide_eq_true_eq] at h
          obtain ⟨hkind, hkids⟩ := h
          obtain ⟨vs, hvs⟩ := lval_read_loop_readable children hkids
          have hl := lval_read_loop_of_forall children vs hvs
          by_cases hq : strstr tag "qexpr" = true
          · exact ⟨.qexpr vs, by
              simp [lval_read, hn, hs, hl, lval_read_container_eq, hq]⟩
          · have hkind2 : tag = ">" ∨ strstr tag "sexpr" = true := by
              rcases hkind with (h1 | h1) | h1
              · exact Or.inl h1
              · exact Or.inr h1
              · exact absurd h1 hq
            exact ⟨.sexpr vs, by
              simp [lval_read, hn, hs, hl, lval_read_container_eq, hq, hkind2]⟩
/-- The kept children of readable children all read to Values. -/
theorem lval_read_loop_readable : ∀ cs : List mpc_ast_t, readable_children cs = true →
    ∃ vs, List.Forall₂ (fun c v => lval_read c = .ok v) (kept_children cs) vs
  | [], _ => ⟨[], by simp [kept_children]⟩
  | c :: cs, h => by
      simp only [readable_children, Bool.and_eq_true, Bool.or_eq_true] at h
      obtain ⟨hc, hcs⟩ := h
      obtain ⟨vs, hvs⟩ := lval_read_loop_readable cs hcs
      by_cases hskip : lval_read_skip c = true
      · exact ⟨vs, by simpa [kept_children, List.filter_cons, hskip] using hvs⟩
      · have hr : c.readable = true := by
          rcases hc with hc | hc
          · exact absurd hc hskip
          · exact hc
        obtain ⟨v, hv⟩ := lval_read_readable c hr
        refine ⟨v :: vs, ?_⟩
        have hk : kept_children (c :: cs) = c :: kept_children cs := by
          simp [kept_children, List.filter_cons, hskip]
        rw [hk]
        exact List.Forall₂.cons hv hvs
end

theorem mem_kept_children (children : List mpc_ast_t) (c : mpc_ast_t) :
    c ∈ kept_children children ↔
      c ∈ children ∧ c.contents ≠ "(" ∧ c.contents ≠ ")" ∧ c.contents ≠ "\x7b"
        ∧ c.contents ≠ "\x7d" ∧ c.tag ≠ "regex" := by
  simp only [kept_children, List.mem_filter, lval_read_skip, Bool.not_eq_true',
    Bool.or_eq_false_iff, decide_eq_false_iff_not]
  tauto

/-- C19: for a node that is the root (tag `>`) or whose tag contains `sexpr` or
`qexpr`, and that is not a literal (its tag contains neither `number` nor
`symbol`), `lval_read` returns a Q-expression when the tag contains `qexpr`
and an S-expression otherwise, whose elements are exactly the reads of the
kept children, in their order: the children left after removing those whose
text is one of the four delimiters and those whose tag is `regex`. Its count
is the number of kept children. -/
theorem lval_read_keeps_shape_and_order (tag contents : String)
    (children : List mpc_ast_t)
    (hkind : tag = ">" ∨ strstr tag "sexpr" = true ∨ strstr tag "qexpr" = true)
    (hnum : strstr tag "number" = false) (hsym : strstr tag "symbol" = false)
    (hkids : readable_children children = true) :
    (∃ vs, List.Forall₂ (fun c v => lval_read c = .ok v) (kept_children children) vs
      ∧ lval_read (.mk tag contents children)
          = .ok (if strstr tag "qexpr" = true then .qexpr vs else .sexpr vs)
      ∧ vs.length = (kept_children children).length)
    ∧ (∀ vs, List.Forall₂ (fun c v => lval_read c = .ok v) (kept_children children) vs →
        lval_read (.mk tag contents children)
          = .ok (if strstr tag "qexpr" = true then .qexpr vs else .sexpr vs))
    ∧ (∀ c, c ∈ kept_children children ↔
        c ∈ children ∧ c.contents ≠ "(" ∧ c.contents ≠ ")" ∧ c.contents ≠ "\x7b"
          ∧ c.contents ≠ "\x7d" ∧ c.tag ≠ "regex") := by
  have hread : ∀ vs,
      List.Forall₂ (fun c v => lval_read c = .ok v) (kept_children children) vs →
      lval_read (.mk tag contents children)
        = .ok (if strstr tag "qexpr" = true then .qexpr vs else .sexpr vs) := by
    intro vs hvs
    have hl := lval_read_loop_of_forall children vs hvs
    by_cases hq : strstr tag "qexpr" = true
    · simp [lval_read, hnum, hsym, hl, lval_read_container_eq, hq]
    · have hkind2 : tag = ">" ∨ strstr tag "sexpr" = true := by
        rcases hkind with h1 | h1 | h1
        · exact Or.inl h1
        · exact Or.inr h1
        · exact absurd h1 hq
      simp [lval_read, hnum, hsym, hl, lval_read_container_eq, hq, hkind2]
  obtain ⟨vs, hvs⟩ := lval_read_loop_readable children hkids
  exact ⟨⟨vs, hvs, hread vs hvs, (List.Forall₂.length_eq hvs).symm⟩, hread,
    mem_kept_children children⟩

/-- The tree the grammar builds for the line `1 (+)`. -/
theorem lval_read_line_one_plus :
    lval_read (.mk ">" "" [.mk "regex" "" [], .mk "expr|number|regex" "1" [],
        .mk "expr|sexpr|>" "" [.mk "char" "(" [], .mk "expr|symbol|regex" "+" [],
          .mk "char" ")" []],
        .mk "regex" "" []])
      = .ok (.sexpr [.num 1, .sexpr [.sym "+"]]) := rfl

/-- C19 at the tree the grammar builds for the line `1 (+)`. -/
theorem lval_read_keeps_shape_and_order_witness :
    (∃ vs, List.Forall₂ (fun c v => lval_read c = .ok v)
        (kept_children [.mk "regex" "" [], .mk "expr|number|regex" "1" [],
          .mk "expr|sexpr|>" "" [.mk "char" "(" [], .mk "expr|symbol|regex" "+" [],
            .mk "char" ")" []],
          .mk "regex" "" []]) vs
      ∧ lval_read (.mk ">" "" [.mk "regex" "" [], .mk "expr|number|regex" "1" [],
          .mk "expr|sexpr|>" "" [.mk "char" "(" [], .mk "expr|symbol|regex" "+" [],
            .mk "char" ")" []],
          .mk "regex" "" []])
          = .ok (if strstr ">" "qexpr" = true then .qexpr vs else .sexpr vs)
      ∧ vs.length = (kept_children [.mk "regex" "" [], .mk "expr|number|regex" "1" [],
          .mk "expr|sexpr|>" "" [.mk "char" "(" [], .mk "expr|symbol|regex" "+" [],
            .mk "char" ")" []],
          .mk "regex" "" []]).length) :=
  (lval_read_keeps_shape_and_order ">" "" [.mk "regex" "" [],
      .mk "expr|number|regex" "1" [],
      .mk "expr|sexpr|>" "" [.mk "char" "(" [], .mk "expr|symbol|regex" "+" [],
        .mk "char" ")" []],
      .mk "regex" "" []] (Or.inl rfl) rfl rfl rfl).1


/-! ## Termination -/

theorem lval_eval_sym (fuel : Nat) (e : Lenv) (s : String) :
    lval_eval fuel e (.sym s) = .ok (e, lenv_get e s) := by
  cases fuel <;> rfl

/-- With `f` bound to `{eval f}`, no fuel is enough for `eval f`. -/
theorem lval_eval_eval_f_timeout (fuel : Nat) :
    lval_eval fuel (initial_env ++ [("f", .qexpr [.sym "eval", .sym "f"])])
      (.sexpr [.sym "eval", .sym "f"]) = .timeout := by
  induction fuel with
  | zero => rfl
  | succ n ih =>
      have h1 : lenv_get (initial_env ++ [("f", .qexpr [.sym "eval", .sym "f"])]) "eval"
          = .builtin .fn_eval := rfl
      have h2 : lenv_get (initial_env ++ [("f", .qexpr [.sym "eval", .sym "f"])]) "f"
          = .qexpr [.sym "eval", .sym "f"] := rfl
      simp only [lval_eval, lval_eval_sexpr, lval_eval_cells, lval_eval_sym, h1, h2,
        lval_eval_sexpr_apply, lval_eval_sexpr_scan, Lval.is_err, lbuiltin_call,
        builtin_eval, ih]
      rfl

/-- C20 (as stated, refuted): the lines `def {f} {eval f}` and `eval f` are read
as expressions of nesting depth 2 and 1; the first, evaluated in the initial
environment, binds `f`; in the environment it leaves the second never returns,
whatever the fuel: `builtin_eval` re-enters `lval_eval` on the same expression. -/
theorem lval_eval_recurses_without_end :
    lval_read (.mk ">" "" [.mk "regex" "" [], .mk "expr|symbol|regex" "def" [],
        .mk "expr|qexpr|>" "" [.mk "char" "\x7b" [], .mk "expr|symbol|regex" "f" [],
          .mk "char" "\x7d" []],
        .mk "expr|qexpr|>" "" [.mk "char" "\x7b" [], .mk "expr|symbol|regex" "eval" [],
          .mk "expr|symbol|regex" "f" [], .mk "char" "\x7d" []],
        .mk "regex" "" []])
      = .ok (.sexpr [.sym "def", .qexpr [.sym "f"], .qexpr [.sym "eval", .sym "f"]])
    ∧ lval_read (.mk ">" "" [.mk "regex" "" [], .mk "expr|symbol|regex" "eval" [],
        .mk "expr|symbol|regex" "f" [], .mk "regex" "" []])
      = .ok (.sexpr [.sym "eval", .sym "f"])
    ∧ (Lval.sexpr [.sym "eval", .sym "f"]).depth = 1
    ∧ lval_eval 1 initial_env
        (.sexpr [.sym "def", .qexpr [.sym "f"], .qexpr [.sym "eval", .sym "f"]])
      = .ok (initial_env ++ [("f", .qexpr [.sym "eval", .sym "f"])], .sexpr [])
    ∧ (∀ fuel, lval_eval fuel (initial_env ++ [("f", .qexpr [.sym "eval", .sym "f"])])
        (.sexpr [.sym "eval", .sym "f"]) = .timeout) :=
  ⟨rfl, rfl, rfl, rfl, lval_eval_eval_f_timeout⟩

theorem finishes_clean_ok (e : Lenv) (r : Lval) (he : eval_only_by_name e = true)
    (hr : r.mentions_eval = false) : finishes_clean (.ok (e, r)) := by
  refine ⟨by simp, ?_⟩
  intro e1 r1 h
  simp only [Outcome.ok.injEq, Prod.mk.injEq] at h
  obtain ⟨rfl, rfl⟩ := h
  exact ⟨he, hr⟩

theorem finishes_clean_fault (f : Fault) : finishes_clean (.fault f) :=
  ⟨by simp, by intro e1 r h; cases h⟩

theorem lval_del_ne_timeout (v : Lval) : lval_del v ≠ .timeout := by
  rcases lval_del_result v with h | h <;> simp [h]

theorem lval_del_cells_ne_timeout (cells : List Lval) : lval_del_cells cells ≠ .timeout := by
  rcases lval_del_cells_result cells with h | h <;> simp [h]

/-- A deletion in front of a run that finishes clean leaves a run that finishes
clean: it completes or it stops at a fault. -/
theorem finishes_clean_after_del (d : Outcome Unit) (hd : d ≠ .timeout)
    (o : Outcome (Lenv × Lval)) (ho : finishes_clean o) :
    finishes_clean (after_del d o) := by
  cases d with
  | ok u => exact ho
  | fault f => exact finishes_clean_fault f
  | timeout => exact absurd rfl hd

theorem finishes_clean_del (v : Lval) (o : Outcome (Lenv × Lval))
    (ho : finishes_clean o) : finishes_clean (after_del (lval_del v) o) :=
  finishes_clean_after_del _ (lval_del_ne_timeout v) o ho

theorem finishes_clean_del_cells (cells : List Lval) (o : Outcome (Lenv × Lval))
    (ho : finishes_clean o) : finishes_clean (after_del (lval_del_cells cells) o) :=
  finishes_clean_after_del _ (lval_del_cells_ne_timeout cells) o ho

theorem lval_err_clean (text : String) : (lval_err text).mentions_eval = false := by
  simp [lval_err, Lval.mentions_eval]

theorem finishes_clean_reject (cells : List Lval) (e : Lenv) (text : String)
    (he : eval_only_by_name e = true) :
    finishes_clean (after_del (lval_del_cells cells) (.ok (e, lval_err text))) :=
  finishes_clean_del_cells cells _ (finishes_clean_ok e _ he (lval_err_clean text))

theorem cells_mention_eval_false_iff (vs : List Lval) :
    cells_mention_eval vs = false ↔ ∀ x ∈ vs, x.mentions_eval = false := by
  induction vs with
  | nil => simp [cells_mention_eval]
  | cons c cs ih => simp [cells_mention_eval, ih]

theorem eval_only_by_name_put (e : Lenv) (k : String) (v : Lval)
    (he : eval_only_by_name e = true) (hv : v.mentions_eval = false) :
    eval_only_by_name (lenv_put_result e k v) = true := by
  induction e with
  | nil => simp [lenv_put_result, eval_only_by_name, hv]
  | cons p rest ih =>
      obtain ⟨s, x⟩ := p
      have hp : (decide (s = "eval") || !x.mentions_eval) = true
          ∧ eval_only_by_name rest = true := by
        simpa [eval_only_by_name] using he
      by_cases hs : s = k
      · simp only [lenv_put_result, hs, if_true]
        have hrest : eval_only_by_name rest = true := hp.2
        simp only [eval_only_by_name, List.all_cons, hv, Bool.not_false, Bool.or_true,
          Bool.true_and] at hrest ⊢
        exact hrest
      · simp only [lenv_put_result, hs, if_false]
        have ih2 := ih hp.2
        simp only [eval_only_by_name, List.all_cons, Bool.and_eq_true] at ih2 ⊢
        exact ⟨hp.1, ih2⟩

theorem lenv_get_clean (e : Lenv) (s : String) (he : eval_only_by_name e = true)
    (hs : s ≠ "eval") : (lenv_get e s).mentions_eval = false := by
  induction e with
  | nil => simp [lenv_get, lval_err_clean]
  | cons p rest ih =>
      obtain ⟨k, x⟩ := p
      have hp : (decide (k = "eval") || !x.mentions_eval) = true
          ∧ eval_only_by_name rest = true := by
        simpa [eval_only_by_name] using he
      by_cases hk : k = s
      · subst hk
        simp only [lenv_get, if_true, lval_copy_eq]
        have := hp.1
        simpa [hs] using this
      · simp only [lenv_get, hk, if_false]
        exact ih hp.2

theorem depth_le_cells_depth (cells : List Lval) (x : Lval) (hx : x ∈ cells) :
    x.depth ≤ cells_depth cells := by
  induction cells with
  | nil => simp at hx
  | cons c cs ih =>
      simp only [cells_depth]
      rcases List.mem_cons.mp hx with h | h
      · subst h
        exact Nat.le_max_left _ _
      · exact Nat.le_trans (ih h) (Nat.le_max_right _ _)

theorem builtin_list_finishes_clean (e : Lenv) (a : List Lval)
    (he : eval_only_by_name e = true) (ha : cells_mention_eval a = false) :
    finishes_clean (builtin_list e a) :=
  finishes_clean_ok e _ he (by simpa [Lval.mentions_eval] using ha)

theorem builtin_head_finishes_clean (e : Lenv) (a : List Lval)
    (he : eval_only_by_name e = true) (ha : cells_mention_eval a = false) :
    finishes_clean (builtin_head e a) := by
  cases a with
  | nil =>
              simp only [builtin_head]
              exact finishes_clean_reject _ e _ he
  | cons arg rest =>
      cases rest with
      | cons _ _ =>
              simp only [builtin_head]
              exact finishes_clean_reject _ e _ he
      | nil =>
          cases arg with
          | qexpr v =>
              cases v with
              | nil =>
                  simp only [builtin_head, List.length_nil]
                  rw [if_pos True.intro]
                  exact finishes_clean_reject _ e _ he
              | cons x0 xs =>
                  rw [builtin_head_eq]
                  apply finishes_clean_del_cells
                  apply finishes_clean_ok e _ he
                  simp only [cells_mention_eval, Lval.mentions_eval, Bool.or_false,
                    Bool.or_eq_false_iff] at ha ⊢
                  exact ha.1
          | num _ =>
              simp only [builtin_head]
              exact finishes_clean_reject _ e _ he
          | err _ =>
              simp only [builtin_head]
              exact finishes_clean_reject _ e _ he
          | sym _ =>
              simp only [builtin_head]
              exact finishes_clean_reject _ e _ he
          | builtin _ =>
              simp only [builtin_head]
              exact finishes_clean_reject _ e _ he
          | lambda _ _ _ =>
              simp only [builtin_head]
              exact finishes_clean_reject _ e _ he
          | sexpr _ =>
              simp only [builtin_head]
              exact finishes_clean_reject _ e _ he

theorem builtin_tail_finishes_clean (e : Lenv) (a : List Lval)
    (he : eval_only_by_name e = true) (ha : cells_mention_eval a = false) :
    finishes_clean (builtin_tail e a) := by
  cases a with
  | nil =>
              simp only [builtin_tail]
              exact finishes_clean_reject _ e _ he
  | cons arg rest =>
      cases rest with
      | cons _ _ =>
              simp only [builtin_tail]
              exact finishes_clean_reject _ e _ he
      | nil =>
          cases arg with
          | qexpr v =>
              cases v with
              | nil =>
                  simp only [builtin_tail, List.length_nil]
                  rw [if_pos True.intro]
                  exact finishes_clean_reject _ e _ he
              | cons x0 xs =>
                  rw [builtin_tail_eq]
                  apply finishes_clean_del
                  apply finishes_clean_ok e _ he
                  simp only [cells_mention_eval, Lval.mentions_eval, Bool.or_false,
                    Bool.or_eq_false_iff] at ha ⊢
                  exact ha.2
          | num _ =>
              simp only [builtin_tail]
              exact finishes_clean_reject _ e _ he
          | err _ =>
              simp only [builtin_tail]
              exact finishes_clean_reject _ e _ he
          | sym _ =>
              simp only [builtin_tail]
              exact finishes_clean_reject _ e _ he
          | builtin _ =>
              simp only [builtin_tail]
              exact finishes_clean_reject _ e _ he
          | lambda _ _ _ =>
              simp only [builtin_tail]
              exact finishes_clean_reject _ e _ he
          | sexpr _ =>
              simp only [builtin_tail]
              exact finishes_clean_reject _ e _ he

theorem builtin_join_loop_clean (x a : List Lval)
    (hx : cells_mention_eval x = false) (ha : cells_mention_eval a = false) :
    builtin_join_loop x a ≠ .timeout
      ∧ ∀ cells, builtin_join_loop x a = .ok cells → cells_mention_eval cells = false := by
  induction a generalizing x with
  | nil =>
      refine ⟨by simp [builtin_join_loop], ?_⟩
      intro cells h
      simp only [builtin_join_loop, Outcome.ok.injEq] at h
      rw [← h]
      exact hx
  | cons c a ih =>
      simp only [cells_mention_eval, Bool.or_eq_false_iff] at ha
      obtain ⟨hc, hrest⟩ := ha
      have happ : ∀ y, cells_mention_eval y = false →
          cells_mention_eval (lval_join x y) = false := by
        intro y hy
        rw [lval_join_eq, cells_mention_eval_false_iff]
        intro z hz
        rcases List.mem_append.mp hz with hz | hz
        · exact (cells_mention_eval_false_iff x).mp hx z hz
        · exact (cells_mention_eval_false_iff y).mp hy z hz
      cases c with
      | qexpr y =>
          simp only [builtin_join_loop]
          exact ih _ (happ y (by simpa [Lval.mentions_eval] using hc)) hrest
      | sexpr y =>
          simp only [builtin_join_loop]
          exact ih _ (happ y (by simpa [Lval.mentions_eval] using hc)) hrest
      | num _ => exact ⟨by simp [builtin_join_loop], by simp [builtin_join_loop]⟩
      | err _ => exact ⟨by simp [builtin_join_loop], by simp [builtin_join_loop]⟩
      | sym _ => exact ⟨by simp [builtin_join_loop], by simp [builtin_join_loop]⟩
      | builtin _ => exact ⟨by simp [builtin_join_loop], by simp [builtin_join_loop]⟩
      | lambda _ _ _ => exact ⟨by simp [builtin_join_loop], by simp [builtin_join_loop]⟩

theorem builtin_join_finishes_clean (e : Lenv) (a : List Lval)
    (he : eval_only_by_name e = true) (ha : cells_mention_eval a = false) :
    finishes_clean (builtin_join e a) := by
  unfold builtin_join
  split
  · cases a with
    | nil => exact finishes_clean_fault _
    | cons c a1 =>
        simp only [cells_mention_eval, Bool.or_eq_false_iff] at ha
        obtain ⟨hc, hrest⟩ := ha
        simp only [lval_pop, List.get?_cons_zero, List.eraseIdx_cons_zero]
        cases c with
        | qexpr x =>
            have hx : cells_mention_eval x = false := by
              simpa [Lval.mentions_eval] using hc
            obtain ⟨h1, h2⟩ := builtin_join_loop_clean x a1 hx hrest
            cases hl : builtin_join_loop x a1 with
            | ok cells =>
                simp only [hl]
                exact finishes_clean_ok e (.qexpr cells) he (by
                  simpa [Lval.mentions_eval] using h2 cells hl)
            | fault f =>
                simp only [hl]
                exact finishes_clean_fault f
            | timeout => exact absurd hl h1
        | num _ => exact finishes_clean_fault _
        | err _ => exact finishes_clean_fault _
        | sym _ => exact finishes_clean_fault _
        | builtin _ => exact finishes_clean_fault _
        | lambda _ _ _ => exact finishes_clean_fault _
        | sexpr _ => exact finishes_clean_fault _
  · exact finishes_clean_reject _ e _ he

theorem builtin_op_finishes_clean (e : Lenv) (a : List Lval) (op : String)
    (he : eval_only_by_name e = true) : finishes_clean (builtin_op e a op) := by
  rcases builtin_op_result e a op with ⟨k, hk⟩ | ⟨msg, hm⟩ | ⟨f, hf, _⟩
  · rw [hk]
    exact finishes_clean_ok e _ he rfl
  · rw [hm]
    exact finishes_clean_ok e _ he rfl
  · rw [hf]
    exact finishes_clean_fault f

theorem builtin_def_loop_clean (e : Lenv) (syms vals : List Lval)
    (he : eval_only_by_name e = true) (hv : cells_mention_eval vals = false) :
    builtin_def_loop e syms vals ≠ .timeout
      ∧ ∀ e1, builtin_def_loop e syms vals = .ok e1 → eval_only_by_name e1 = true := by
  induction syms generalizing e vals with
  | nil =>
      refine ⟨by simp [builtin_def_loop], ?_⟩
      intro e1 h
      simp only [builtin_def_loop, Outcome.ok.injEq] at h
      rw [← h]
      exact he
  | cons c syms ih =>
      cases c with
      | sym s =>
          cases vals with
          | nil => exact ⟨by simp [builtin_def_loop], by simp [builtin_def_loop]⟩
          | cons v vals =>
              simp only [cells_mention_eval, Bool.or_eq_false_iff] at hv
              simp only [builtin_def_loop]
              rcases lenv_put_cases e s v with hp | hp
              · simp only [hp]
                exact ih (lenv_put_result e s v) vals
                  (eval_only_by_name_put e s v he hv.1) hv.2
              · simp only [hp]
                exact ⟨by simp, by simp⟩
      | num _ => exact ⟨by simp [builtin_def_loop], by simp [builtin_def_loop]⟩
      | err _ => exact ⟨by simp [builtin_def_loop], by simp [builtin_def_loop]⟩
      | builtin _ => exact ⟨by simp [builtin_def_loop], by simp [builtin_def_loop]⟩
      | lambda _ _ _ => exact ⟨by simp [builtin_def_loop], by simp [builtin_def_loop]⟩
      | sexpr _ => exact ⟨by simp [builtin_def_loop], by simp [builtin_def_loop]⟩
      | qexpr _ => exact ⟨by simp [builtin_def_loop], by simp [builtin_def_loop]⟩

theorem builtin_def_finishes_clean (e : Lenv) (a : List Lval)
    (he : eval_only_by_name e = true) (ha : cells_mention_eval a = false) :
    finishes_clean (builtin_def e a) := by
  cases a with
  | nil => exact finishes_clean_fault _
  | cons first vals =>
      cases first with
      | qexpr syms =>
          simp only [cells_mention_eval, Bool.or_eq_false_iff] at ha
          simp only [builtin_def]
          split
          · split
            · obtain ⟨h1, h2⟩ := builtin_def_loop_clean e syms vals he ha.2
              cases hl : builtin_def_loop e syms vals with
              | ok e1 =>
                  simp only []
                  exact finishes_clean_del_cells _ _ (finishes_clean_ok e1 _ (h2 e1 hl) rfl)
              | fault f =>
                  simp only []
                  exact finishes_clean_fault f
              | timeout => exact absurd hl h1
            · exact finishes_clean_reject _ e _ he
          · exact finishes_clean_reject _ e _ he
      | num _ =>
              simp only [builtin_def]
              exact finishes_clean_reject _ e _ he
      | err _ =>
              simp only [builtin_def]
              exact finishes_clean_reject _ e _ he
      | sym _ =>
              simp only [builtin_def]
              exact finishes_clean_reject _ e _ he
      | builtin _ =>
              simp only [builtin_def]
              exact finishes_clean_reject _ e _ he
      | lambda _ _ _ =>
              simp only [builtin_def]
              exact finishes_clean_reject _ e _ he
      | sexpr _ =>
              simp only [builtin_def]
              exact finishes_clean_reject _ e _ he

theorem builtin_lambda_finishes_clean (e : Lenv) (a : List Lval)
    (he : eval_only_by_name e = true) (ha : cells_mention_eval a = false) :
    finishes_clean (builtin_lambda e a) := by
  unfold builtin_lambda
  split
  · rename_i formals body
    simp only [cells_mention_eval, Bool.or_eq_false_iff, Bool.or_false] at ha
    split
    · split
      · exact finishes_clean_reject _ e _ he
      · apply finishes_clean_ok e _ he
        simp only [Lval.mentions_eval] at ha
        simp [lval_lambda, lenv_new, Lval.mentions_eval, lenv_mentions_eval, ha.1, ha.2]
    · exact finishes_clean_fault _
  · exact finishes_clean_reject _ e _ he

/-- Every builtin but `builtin_eval` finishes without entering the evaluator. -/
theorem lbuiltin_call_finishes_clean (ev : Lenv → Lval → Outcome (Lenv × Lval))
    (b : Lbuiltin) (hb : b ≠ .fn_eval) (e : Lenv) (a : List Lval)
    (he : eval_only_by_name e = true) (ha : cells_mention_eval a = false) :
    finishes_clean (lbuiltin_call ev b e a) := by
  cases b with
  | fn_def => exact builtin_def_finishes_clean e a he ha
  | fn_list => exact builtin_list_finishes_clean e a he ha
  | fn_head => exact builtin_head_finishes_clean e a he ha
  | fn_tail => exact builtin_tail_finishes_clean e a he ha
  | fn_eval => exact absurd rfl hb
  | fn_join => exact builtin_join_finishes_clean e a he ha
  | fn_add => exact builtin_op_finishes_clean e a "+" he
  | fn_sub => exact builtin_op_finishes_clean e a "-" he
  | fn_mul => exact builtin_op_finishes_clean e a "*" he
  | fn_div => exact builtin_op_finishes_clean e a "/" he
  | fn_lambda => exact builtin_lambda_finishes_clean e a he ha

/-- The function `lval_take` at an index in range returns the cell or stops in
the deletion of the others. -/
theorem lval_take_cases (v : List Lval) (i : Nat) (x : Lval) (hi : v[i]? = some x) :
    lval_take v i = .ok x ∨ lval_take v i = .fault .uninit_field := by
  rw [lval_take_eq v i x hi]
  rcases lval_del_cells_result (v.eraseIdx i) with h | h
  · exact Or.inl (by simp [h, after_del])
  · exact Or.inr (by simp [h, after_del])

theorem after_call_del (b : Lbuiltin) (o : Outcome (Lenv × Lval)) :
    (match o with
      | .ok r => after_del (lval_del (.builtin b)) (.ok r)
      | .fault g => .fault g
      | .timeout => .timeout) = o := by
  cases o <;> rfl

theorem lval_eval_sexpr_apply_finishes_clean (ev : Lenv → Lval → Outcome (Lenv × Lval))
    (e : Lenv) (v : List Lval)
    (he : eval_only_by_name e = true) (hv : cells_mention_eval v = false) :
    finishes_clean (lval_eval_sexpr_apply (lbuiltin_call ev) e v) := by
  have hmem := (cells_mention_eval_false_iff v).mp hv
  cases hscan : lval_eval_sexpr_scan v with
  | some i =>
      obtain ⟨x, hi, _⟩ := lval_eval_sexpr_scan_some v i hscan
      have hx : x ∈ v := by
        obtain ⟨hlt, hget⟩ := List.getElem?_eq_some.mp hi
        rw [← hget]
        exact List.getElem_mem hlt
      simp only [lval_eval_sexpr_apply, hscan]
      rcases lval_take_cases v i x hi with h | h
      · simp only [h]
        exact finishes_clean_ok e x he (hmem x hx)
      · simp only [h]
        exact finishes_clean_fault _
  | none =>
      cases v with
      | nil =>
          simp only [lval_eval_sexpr_apply, hscan]
          exact finishes_clean_ok e _ he rfl
      | cons f rest =>
          have hf : f.mentions_eval = false := hmem f (by simp)
          cases rest with
          | nil =>
              simp only [lval_eval_sexpr_apply, hscan]
              exact finishes_clean_ok e f he hf
          | cons arg args =>
              have hargs : cells_mention_eval (arg :: args) = false := by
                rw [cells_mention_eval_false_iff]
                intro y hy
                exact hmem y (List.mem_cons_of_mem f hy)
              cases f with
              | builtin b =>
                  have hb : b ≠ Lbuiltin.fn_eval := by
                    intro hb
                    subst hb
                    simp [Lval.mentions_eval] at hf
                  simp only [lval_eval_sexpr_apply, hscan, after_call_del]
                  exact lbuiltin_call_finishes_clean ev b hb e (arg :: args) he hargs
              | lambda env formals body =>
                  simp only [lval_eval_sexpr_apply, hscan]
                  exact finishes_clean_fault _
              | num n =>
                  simp only [lval_eval_sexpr_apply, hscan]
                  exact finishes_clean_del _ _ (finishes_clean_reject _ e _ he)
              | err msg =>
                  simp only [lval_eval_sexpr_apply, hscan]
                  exact finishes_clean_del _ _ (finishes_clean_reject _ e _ he)
              | sym sn =>
                  simp only [lval_eval_sexpr_apply, hscan]
                  exact finishes_clean_del _ _ (finishes_clean_reject _ e _ he)
              | sexpr cs =>
                  simp only [lval_eval_sexpr_apply, hscan]
                  exact finishes_clean_del _ _ (finishes_clean_reject _ e _ he)
              | qexpr cs =>
                  simp only [lval_eval_sexpr_apply, hscan]
                  exact finishes_clean_del _ _ (finishes_clean_reject _ e _ he)

theorem lval_eval_cells_finishes_clean (ev : Lenv → Lval → Outcome (Lenv × Lval))
    (cells : List Lval)
    (hev : ∀ c ∈ cells, ∀ e, eval_only_by_name e = true → finishes_clean (ev e c))
    (e : Lenv) (he : eval_only_by_name e = true) :
    lval_eval_cells ev e cells ≠ .timeout
      ∧ ∀ e1 vs, lval_eval_cells ev e cells = .ok (e1, vs) →
          eval_only_by_name e1 = true ∧ cells_mention_eval vs = false := by
  induction cells generalizing e with
  | nil =>
      refine ⟨by simp [lval_eval_cells], ?_⟩
      intro e1 vs h
      simp only [lval_eval_cells, Outcome.ok.injEq, Prod.mk.injEq] at h
      obtain ⟨rfl, rfl⟩ := h
      exact ⟨he, rfl⟩
  | cons c cs ih =>
      obtain ⟨hc1, hc2⟩ := hev c (by simp) e he
      simp only [lval_eval_cells]
      cases hc : ev e c with
      | ok r =>
          obtain ⟨ec, c1⟩ := r
          obtain ⟨hec, hc1clean⟩ := hc2 ec c1 hc
          obtain ⟨ih1, ih2⟩ := ih (fun d hd => hev d (by simp [hd])) ec hec
          cases hcs : lval_eval_cells ev ec cs with
          | ok r2 =>
              obtain ⟨e2, cs1⟩ := r2
              obtain ⟨he2, hcs1⟩ := ih2 e2 cs1 hcs
              simp only [hcs]
              refine ⟨by simp, ?_⟩
              intro e1 vs h
              simp only [Outcome.ok.injEq, Prod.mk.injEq] at h
              obtain ⟨rfl, rfl⟩ := h
              exact ⟨he2, by simp [cells_mention_eval, hc1clean, hcs1]⟩
          | fault f =>
              simp only [hcs]
              exact ⟨by simp, by simp⟩
          | timeout => exact absurd hcs ih1
      | fault f => exact ⟨by simp, by simp⟩
      | timeout => exact absurd hc hc1

/-- Without `eval`, fuel equal to the nesting depth is enough. -/
theorem lval_eval_finishes_clean (n : Nat) : ∀ (e : Lenv) (v : Lval),
    eval_only_by_name e = true → v.mentions_eval = false → v.depth ≤ n →
    finishes_clean (lval_eval n e v) := by
  induction n with
  | zero =>
      intro e v he hv hd
      cases v with
      | sym s =>
          rw [lval_eval_sym]
          exact finishes_clean_ok e _ he
            (lenv_get_clean e s he (by simpa [Lval.mentions_eval] using hv))
      | sexpr cells => simp [Lval.depth] at hd
      | num _ => exact finishes_clean_ok e _ he hv
      | err _ => exact finishes_clean_ok e _ he hv
      | builtin _ => exact finishes_clean_ok e _ he hv
      | lambda _ _ _ => exact finishes_clean_ok e _ he hv
      | qexpr _ => exact finishes_clean_ok e _ he hv
  | succ m ih =>
      intro e v he hv hd
      cases v with
      | sym s =>
          rw [lval_eval_sym]
          exact finishes_clean_ok e _ he
            (lenv_get_clean e s he (by simpa [Lval.mentions_eval] using hv))
      | sexpr cells =>
          have hcd : cells_depth cells ≤ m := by
            simp only [Lval.depth] at hd
            omega
          have hcells : cells_mention_eval cells = false := by
            simpa [Lval.mentions_eval] using hv
          have hmem := (cells_mention_eval_false_iff cells).mp hcells
          obtain ⟨h1, h2⟩ := lval_eval_cells_finishes_clean (lval_eval m) cells
            (fun c hc e2 he2 => ih e2 c he2 (hmem c hc)
              (Nat.le_trans (depth_le_cells_depth cells c hc) hcd)) e he
          simp only [lval_eval, lval_eval_sexpr]
          cases hr : lval_eval_cells (lval_eval m) e cells with
          | ok r =>
              obtain ⟨e1, vs⟩ := r
              obtain ⟨he1, hvs⟩ := h2 e1 vs hr
              exact lval_eval_sexpr_apply_finishes_clean (lval_eval m) e1 vs he1 hvs
          | fault f => exact finishes_clean_fault f
          | timeout => exact absurd hr h1
      | num _ => exact finishes_clean_ok e _ he hv
      | err _ => exact finishes_clean_ok e _ he hv
      | builtin _ => exact finishes_clean_ok e _ he hv
      | lambda _ _ _ => exact finishes_clean_ok e _ he hv
      | qexpr _ => exact finishes_clean_ok e _ he hv

/-- C20 (amended): in an environment where only the name `eval` leads to
`builtin_eval` (the initial environment is one), an expression that does not
mention `eval` is evaluated with recursion depth at most its nesting depth: fuel
equal to the depth is enough for `lval_eval` to finish (return a Value or stop
at a fault), more fuel changes nothing, and the environment left has the same
property, so the bound holds along any sequence of such evaluations. -/
theorem lval_eval_bounded_without_eval (e : Lenv) (v : Lval) (extra : Nat)
    (he : eval_only_by_name e = true) (hv : v.mentions_eval = false) :
    lval_eval v.depth e v ≠ .timeout
    ∧ lval_eval (v.depth + extra) e v = lval_eval v.depth e v
    ∧ (∀ e1 r, lval_eval v.depth e v = .ok (e1, r) →
        eval_only_by_name e1 = true ∧ r.mentions_eval = false)
    ∧ eval_only_by_name initial_env = true := by
  obtain ⟨h1, h2⟩ := lval_eval_finishes_clean v.depth e v he hv (Nat.le_refl _)
  exact ⟨h1, lval_eval_fuel_mono v.depth extra e v h1, h2, rfl⟩

/-- C20 (amended) at `+ 1 (* 2 3)` in the initial environment. -/
theorem lval_eval_bounded_without_eval_witness :
    lval_eval (Lval.sexpr [.sym "+", .num 1, .sexpr [.sym "*", .num 2, .num 3]]).depth
        initial_env (.sexpr [.sym "+", .num 1, .sexpr [.sym "*", .num 2, .num 3]])
      ≠ .timeout
    ∧ lval_eval
        ((Lval.sexpr [.sym "+", .num 1, .sexpr [.sym "*", .num 2, .num 3]]).depth + 5)
        initial_env (.sexpr [.sym "+", .num 1, .sexpr [.sym "*", .num 2, .num 3]])
      = lval_eval (Lval.sexpr [.sym "+", .num 1, .sexpr [.sym "*", .num 2, .num 3]]).depth
        initial_env (.sexpr [.sym "+", .num 1, .sexpr [.sym "*", .num 2, .num 3]])
    ∧ (∀ e1 r,
        lval_eval (Lval.sexpr [.sym "+", .num 1, .sexpr [.sym "*", .num 2, .num 3]]).depth
          initial_env (.sexpr [.sym "+", .num 1, .sexpr [.sym "*", .num 2, .num 3]])
          = .ok (e1, r) →
        eval_only_by_name e1 = true ∧ r.mentions_eval = false)
    ∧ eval_only_by_name initial_env = true :=
  lval_eval_bounded_without_eval initial_env
    (.sexpr [.sym "+", .num 1, .sexpr [.sym "*", .num 2, .num 3]]) 5 rfl rfl


/-! ## Argument lists handed to builtins -/

/-- The dispatch of `lval_eval_sexpr` passes at least one argument: what the
function pointers would do on an empty list does not matter. -/
theorem lval_eval_sexpr_apply_guard (on_empty : Lbuiltin → Lenv → Outcome (Lenv × Lval))
    (call : Lbuiltin → Lenv → List Lval → Outcome (Lenv × Lval)) (e : Lenv)
    (v : List Lval) :
    lval_eval_sexpr_apply (guard_nonempty on_empty call) e v
      = lval_eval_sexpr_apply call e v := by
  cases hscan : lval_eval_sexpr_scan v with
  | some i => simp only [lval_eval_sexpr_apply, hscan]
  | none =>
      cases v with
      | nil => simp only [lval_eval_sexpr_apply, hscan]
      | cons f rest =>
          cases rest with
          | nil => simp only [lval_eval_sexpr_apply, hscan]
          | cons arg args =>
              cases f <;> simp only [lval_eval_sexpr_apply, hscan, guard_nonempty]

theorem lval_eval_sexpr_guard (on_empty : Lbuiltin → Lenv → Outcome (Lenv × Lval))
    (call : Lbuiltin → Lenv → List Lval → Outcome (Lenv × Lval))
    (ev : Lenv → Lval → Outcome (Lenv × Lval)) (e : Lenv) (cells : List Lval) :
    lval_eval_sexpr (guard_nonempty on_empty call) ev e cells
      = lval_eval_sexpr call ev e cells := by
  simp only [lval_eval_sexpr, lval_eval_sexpr_apply_guard]

/-- The guarded evaluator is the evaluator: no call on any path, re-entrant
ones included, has an empty argument list. -/
theorem lval_eval_guarded_eq (on_empty : Lbuiltin → Lenv → Outcome (Lenv × Lval))
    (fuel : Nat) : lval_eval_guarded on_empty fuel = lval_eval fuel := by
  induction fuel with
  | zero =>
      funext e v
      cases v <;> rfl
  | succ n ih =>
      funext e v
      cases v <;> try rfl
      rename_i cells
      simp only [lval_eval_guarded, lval_eval, ih, lval_eval_sexpr_guard]

theorem lval_del_in_range (v : Lval) : lval_del v ≠ .fault .out_of_range := by
  rcases lval_del_result v with h | h <;> simp [h]

theorem lval_del_cells_in_range (cells : List Lval) :
    lval_del_cells cells ≠ .fault .out_of_range := by
  rcases lval_del_cells_result cells with h | h <;> simp [h]

/-- A deletion reads no cell out of range, so it adds no such read to a run. -/
theorem after_del_in_range {α : Type} (d : Outcome Unit) (hd : d ≠ .fault .out_of_range)
    (o : Outcome α) (ho : o ≠ .fault .out_of_range) :
    after_del d o ≠ .fault .out_of_range := by
  cases d with
  | ok u => exact ho
  | fault f =>
      intro h
      apply hd
      simpa [after_del] using h
  | timeout => simp [after_del]

theorem del_in_range {α : Type} (v : Lval) (o : Outcome α) (ho : o ≠ .fault .out_of_range) :
    after_del (lval_del v) o ≠ .fault .out_of_range :=
  after_del_in_range _ (lval_del_in_range v) o ho

theorem del_cells_in_range {α : Type} (cells : List Lval) (o : Outcome α)
    (ho : o ≠ .fault .out_of_range) :
    after_del (lval_del_cells cells) o ≠ .fault .out_of_range :=
  after_del_in_range _ (lval_del_cells_in_range cells) o ho

theorem reject_in_range (cells : List Lval) (e : Lenv) (x : Lval) :
    after_del (lval_del_cells cells) (Outcome.ok (e, x)) ≠ .fault .out_of_range :=
  del_cells_in_range cells _ (by simp)

theorem builtin_head_in_range (e : Lenv) (a : List Lval) :
    builtin_head e a ≠ .fault .out_of_range := by
  cases a with
  | nil =>
      simp only [builtin_head]
      exact reject_in_range _ e _
  | cons arg rest =>
      cases rest with
      | cons _ _ =>
          simp only [builtin_head]
          exact reject_in_range _ e _
      | nil =>
          cases arg with
          | qexpr v =>
              cases v with
              | nil =>
                  simp only [builtin_head, List.length_nil]
                  rw [if_pos True.intro]
                  exact reject_in_range _ e _
              | cons x0 xs =>
                  rw [builtin_head_eq]
                  exact reject_in_range _ e _
          | num _ =>
              simp only [builtin_head]
              exact reject_in_range _ e _
          | err _ =>
              simp only [builtin_head]
              exact reject_in_range _ e _
          | sym _ =>
              simp only [builtin_head]
              exact reject_in_range _ e _
          | builtin _ =>
              simp only [builtin_head]
              exact reject_in_range _ e _
          | lambda _ _ _ =>
              simp only [builtin_head]
              exact reject_in_range _ e _
          | sexpr _ =>
              simp only [builtin_head]
              exact reject_in_range _ e _

theorem builtin_tail_in_range (e : Lenv) (a : List Lval) :
    builtin_tail e a ≠ .fault .out_of_range := by
  cases a with
  | nil =>
      simp only [builtin_tail]
      exact reject_in_range _ e _
  | cons arg rest =>
      cases rest with
      | cons _ _ =>
          simp only [builtin_tail]
          exact reject_in_range _ e _
      | nil =>
          cases arg with
          | qexpr v =>
              cases v with
              | nil =>
                  simp only [builtin_tail, List.length_nil]
                  rw [if_pos True.intro]
                  exact reject_in_range _ e _
              | cons x0 xs =>
                  rw [builtin_tail_eq]
                  exact del_in_range _ _ (by simp)
          | num _ =>
              simp only [builtin_tail]
              exact reject_in_range _ e _
          | err _ =>
              simp only [builtin_tail]
              exact reject_in_range _ e _
          | sym _ =>
              simp only [builtin_tail]
              exact reject_in_range _ e _
          | builtin _ =>
              simp only [builtin_tail]
              exact reject_in_range _ e _
          | lambda _ _ _ =>
              simp only [builtin_tail]
              exact reject_in_range _ e _
          | sexpr _ =>
              simp only [builtin_tail]
              exact reject_in_range _ e _

/-- On a list of count at least 1, `lval_pop(a, 0)` in `builtin_op` is in range. -/
theorem builtin_op_in_range (e : Lenv) (x : Lval) (a1 : List Lval) (op : String) :
    builtin_op e (x :: a1) op ≠ .fault .out_of_range := by
  rcases builtin_op_result e (x :: a1) op with ⟨k, hk⟩ | ⟨msg, hm⟩ | ⟨f, hf, hne⟩
  · rw [hk]
    simp
  · rw [hm]
    simp
  · rw [hf]
    have := hne (by simp)
    simpa using this

theorem builtin_join_loop_in_range (x a : List Lval) :
    builtin_join_loop x a ≠ .fault .out_of_range := by
  induction a generalizing x with
  | nil => simp [builtin_join_loop]
  | cons c a ih =>
      cases c with
      | qexpr y => simp only [builtin_join_loop]; exact ih _
      | sexpr y => simp only [builtin_join_loop]; exact ih _
      | num _ => simp [builtin_join_loop]
      | err _ => simp [builtin_join_loop]
      | sym _ => simp [builtin_join_loop]
      | builtin _ => simp [builtin_join_loop]
      | lambda _ _ _ => simp [builtin_join_loop]

/-- On a list of count at least 1, `lval_pop(a, 0)` in `builtin_join` is in range. -/
theorem builtin_join_in_range (e : Lenv) (x : Lval) (a1 : List Lval) :
    builtin_join e (x :: a1) ≠ .fault .out_of_range := by
  by_cases hall : (x :: a1).all Lval.is_qexpr = true
  · simp only [builtin_join, hall, if_true, lval_pop, List.get?_cons_zero,
      List.eraseIdx_cons_zero]
    cases x with
    | qexpr y =>
        have hl := builtin_join_loop_in_range y a1
        cases hj : builtin_join_loop y a1 with
        | ok cells => simp only [hj]; simp
        | fault f =>
            rw [hj] at hl
            simp only [hj]
            simpa using hl
        | timeout => simp only [hj]; simp
    | num _ => simp
    | err _ => simp
    | sym _ => simp
    | builtin _ => simp
    | lambda _ _ _ => simp
    | sexpr _ => simp
  · simp only [builtin_join, hall]
    exact reject_in_range _ e _

theorem builtin_def_loop_in_range (e : Lenv) (syms vals : List Lval)
    (h : syms.length ≤ vals.length) :
    builtin_def_loop e syms vals ≠ .fault .out_of_range := by
  induction syms generalizing e vals with
  | nil => simp [builtin_def_loop]
  | cons c syms ih =>
      cases vals with
      | nil => simp at h
      | cons v vals =>
          cases c with
          | sym s =>
              simp only [builtin_def_loop]
              rcases lenv_put_cases e s v with hp | hp
              · simp only [hp]
                exact ih _ vals (by simpa using h)
              · simp only [hp]
                simp
          | num _ => simp [builtin_def_loop]
          | err _ => simp [builtin_def_loop]
          | builtin _ => simp [builtin_def_loop]
          | lambda _ _ _ => simp [builtin_def_loop]
          | sexpr _ => simp [builtin_def_loop]
          | qexpr _ => simp [builtin_def_loop]

/-- On a list of count at least 1, `a->cell[0]` and the cells `a->cell[i+1]` that
`builtin_def` reads are in range. -/
theorem builtin_def_in_range (e : Lenv) (x : Lval) (a1 : List Lval) :
    builtin_def e (x :: a1) ≠ .fault .out_of_range := by
  cases x with
  | qexpr syms =>
      simp only [builtin_def]
      split
      · split
        · rename_i hcount
          have hlen : syms.length ≤ a1.length := by
            simp only [List.length_cons, Nat.cast_add, Nat.cast_one,
              add_sub_cancel_right] at hcount
            have : syms.length = a1.length := by exact_mod_cast hcount
            omega
          have hl := builtin_def_loop_in_range e syms a1 hlen
          cases hd : builtin_def_loop e syms a1 with
          | ok e1 =>
              simp only []
              exact reject_in_range _ e1 _
          | fault f =>
              rw [hd] at hl
              simp only []
              simpa using hl
          | timeout => simp only []; simp
        · exact reject_in_range _ e _
      · exact reject_in_range _ e _
  | num _ =>
      simp only [builtin_def]
      exact reject_in_range _ e _
  | err _ =>
      simp only [builtin_def]
      exact reject_in_range _ e _
  | sym _ =>
      simp only [builtin_def]
      exact reject_in_range _ e _
  | builtin _ =>
      simp only [builtin_def]
      exact reject_in_range _ e _
  | lambda _ _ _ =>
      simp only [builtin_def]
      exact reject_in_range _ e _
  | sexpr _ =>
      simp only [builtin_def]
      exact reject_in_range _ e _

theorem builtin_lambda_in_range (e : Lenv) (a : List Lval) :
    builtin_lambda e a ≠ .fault .out_of_range := by
  unfold builtin_lambda
  split
  · split
    · split
      · exact reject_in_range _ e _
      · simp
    · simp
  · exact reject_in_range _ e _

/-- On a list of count at least 1 no builtin reads a cell out of range, as long
as the evaluator that `builtin_eval` re-enters does not. -/
theorem lbuiltin_call_in_range (ev : Lenv → Lval → Outcome (Lenv × Lval))
    (hev : ∀ e v, ev e v ≠ .fault .out_of_range)
    (b : Lbuiltin) (e : Lenv) (x : Lval) (a1 : List Lval) :
    lbuiltin_call ev b e (x :: a1) ≠ .fault .out_of_range := by
  cases b with
  | fn_def => exact builtin_def_in_range e x a1
  | fn_list => simp [lbuiltin_call, builtin_list]
  | fn_head => exact builtin_head_in_range e (x :: a1)
  | fn_tail => exact builtin_tail_in_range e (x :: a1)
  | fn_eval =>
      simp only [lbuiltin_call, builtin_eval]
      split
      · split
        · exact hev _ _
        · exact reject_in_range _ e _
      · exact reject_in_range _ e _
  | fn_join => exact builtin_join_in_range e x a1
  | fn_add => exact builtin_op_in_range e x a1 "+"
  | fn_sub => exact builtin_op_in_range e x a1 "-"
  | fn_mul => exact builtin_op_in_range e x a1 "*"
  | fn_div => exact builtin_op_in_range e x a1 "/"
  | fn_lambda => exact builtin_lambda_in_range e (x :: a1)

theorem lval_eval_sexpr_apply_in_range (ev : Lenv → Lval → Outcome (Lenv × Lval))
    (hev : ∀ e v, ev e v ≠ .fault .out_of_range) (e : Lenv) (v : List Lval) :
    lval_eval_sexpr_apply (lbuiltin_call ev) e v ≠ .fault .out_of_range := by
  cases hscan : lval_eval_sexpr_scan v with
  | some i =>
      obtain ⟨x, hi, _⟩ := lval_eval_sexpr_scan_some v i hscan
      simp only [lval_eval_sexpr_apply, hscan]
      rcases lval_take_cases v i x hi with h | h
      · simp only [h]
        simp
      · simp only [h]
        simp
  | none =>
      cases v with
      | nil => simp [lval_eval_sexpr_apply, hscan]
      | cons f rest =>
          cases rest with
          | nil =>
              simp only [lval_eval_sexpr_apply, hscan]
              have h : lval_take [f] 0 = .ok f := rfl
              simp only [h]
              simp
          | cons arg args =>
              cases f with
              | builtin b =>
                  simp only [lval_eval_sexpr_apply, hscan, after_call_del]
                  exact lbuiltin_call_in_range ev hev b e arg args
              | lambda _ _ _ => simp [lval_eval_sexpr_apply, hscan]
              | num _ =>
                  simp only [lval_eval_sexpr_apply, hscan]
                  exact del_in_range _ _ (reject_in_range _ e _)
              | err _ =>
                  simp only [lval_eval_sexpr_apply, hscan]
                  exact del_in_range _ _ (reject_in_range _ e _)
              | sym _ =>
                  simp only [lval_eval_sexpr_apply, hscan]
                  exact del_in_range _ _ (reject_in_range _ e _)
              | sexpr _ =>
                  simp only [lval_eval_sexpr_apply, hscan]
                  exact del_in_range _ _ (reject_in_range _ e _)
              | qexpr _ =>
                  simp only [lval_eval_sexpr_apply, hscan]
                  exact del_in_range _ _ (reject_in_range _ e _)

theorem lval_eval_cells_in_range (ev : Lenv → Lval → Outcome (Lenv × Lval))
    (hev : ∀ e v, ev e v ≠ .fault .out_of_range) (e : Lenv) (cells : List Lval) :
    lval_eval_cells ev e cells ≠ .fault .out_of_range := by
  induction cells generalizing e with
  | nil => simp [lval_eval_cells]
  | cons c cs ih =>
      have hc0 := hev e c
      simp only [lval_eval_cells]
      cases hc : ev e c with
      | ok r =>
          obtain ⟨ec, c1⟩ := r
          have hcs0 := ih ec
          cases hcs : lval_eval_cells ev ec cs with
          | ok r2 => simp only [hcs]; simp
          | fault f =>
              rw [hcs] at hcs0
              simp only [hcs]
              simpa using hcs0
          | timeout => simp only [hcs]; simp
      | fault f =>
          rw [hc] at hc0
          simpa using hc0
      | timeout => simp

/-- The evaluator never reads a cell out of range, whatever the environment and
the value. -/
theorem lval_eval_in_range (fuel : Nat) :
    ∀ (e : Lenv) (v : Lval), lval_eval fuel e v ≠ .fault .out_of_range := by
  induction fuel with
  | zero =>
      intro e v
      cases v with
      | sym s => rw [lval_eval_sym]; simp
      | sexpr _ => simp [lval_eval]
      | num _ => simp [lval_eval]
      | err _ => simp [lval_eval]
      | builtin _ => simp [lval_eval]
      | lambda _ _ _ => simp [lval_eval]
      | qexpr _ => simp [lval_eval]
  | succ n ih =>
      intro e v
      cases v with
      | sexpr cells =>
          simp only [lval_eval, lval_eval_sexpr]
          have hcells := lval_eval_cells_in_range (lval_eval n) ih e cells
          cases hr : lval_eval_cells (lval_eval n) e cells with
          | ok r =>
              obtain ⟨e1, vs⟩ := r
              exact lval_eval_sexpr_apply_in_range (lval_eval n) ih e1 vs
          | fault f =>
              rw [hr] at hcells
              simpa using hcells
          | timeout => simp
      | sym s => rw [lval_eval_sym]; simp
      | num _ => simp [lval_eval]
      | err _ => simp [lval_eval]
      | builtin _ => simp [lval_eval]
      | lambda _ _ _ => simp [lval_eval]
      | qexpr _ => simp [lval_eval]

/-- C21: whenever `lval_eval_sexpr` dispatches to a builtin, the argument list it
passes has count at least 1: replacing what the function pointers do on an
empty list by anything else changes neither `lval_eval_sexpr` nor the whole
evaluator, re-entrant calls through `builtin_eval` included. On an empty list
`builtin_op`, `builtin_join` and `builtin_def` would read out of range; on a
list of count at least 1 they do not, and no run of `lval_eval` ever does. -/
theorem builtins_get_nonempty_argument_lists
    (on_empty : Lbuiltin → Lenv → Outcome (Lenv × Lval))
    (call : Lbuiltin → Lenv → List Lval → Outcome (Lenv × Lval))
    (ev : Lenv → Lval → Outcome (Lenv × Lval)) (fuel : Nat) (e : Lenv) (v : Lval)
    (cells : List Lval) (x : Lval) (a1 : List Lval) (op : String) :
    lval_eval_sexpr (guard_nonempty on_empty call) ev e cells
      = lval_eval_sexpr call ev e cells
    ∧ lval_eval_guarded on_empty fuel e v = lval_eval fuel e v
    ∧ (builtin_op e [] op = .fault .out_of_range
        ∧ builtin_join e [] = .fault .out_of_range
        ∧ builtin_def e [] = .fault .out_of_range)
    ∧ (builtin_op e (x :: a1) op ≠ .fault .out_of_range
        ∧ builtin_join e (x :: a1) ≠ .fault .out_of_range
        ∧ builtin_def e (x :: a1) ≠ .fault .out_of_range)
    ∧ lval_eval fuel e v ≠ .fault .out_of_range := by
  refine ⟨lval_eval_sexpr_guard on_empty call ev e cells, ?_, ⟨rfl, rfl, rfl⟩,
    ⟨builtin_op_in_range e x a1 op, builtin_join_in_range e x a1,
      builtin_def_in_range e x a1⟩, lval_eval_in_range fuel e v⟩
  rw [lval_eval_guarded_eq]

end Lispy
